import Mathlib

/-!
Verification of the eduPath core (agent_service.py, youtube_service.py)
against its natural-language specification.

The Python values flowing through the pipeline are JSON-like values
(`dict` / `list` / `str` / `int` / `bool` / `None`), embedded here as `JValue`.
Python operations that can raise (`len`, iteration, attribute access) are
embedded in `Except String`.  Machine floats appear only as the quality
ratio `likes/views*100`; it is embedded as a rational number.
-/

/-- JSON-like Python value (the shapes produced by `json.loads` and handled
by the service code).  JSON numbers are modelled as integers: no claim under
verification depends on float-valued JSON numbers. -/
inductive JValue where
  | null : JValue
  | bool (b : Bool) : JValue
  | num (n : Int) : JValue
  | str (s : String) : JValue
  | arr (elems : List JValue) : JValue
  | obj (fields : List (String × JValue)) : JValue

/-- Python truthiness of a `JValue` (`bool(x)`): `None`, `False`, `0`, `""`,
`[]` and the empty dict are falsy. -/
def jTruthy : JValue → Bool
  | .null => false
  | .bool b => b
  | .num n => n != 0
  | .str s => s != ""
  | .arr l => !l.isEmpty
  | .obj kvs => !kvs.isEmpty

/-- Does the character list `s` start with `sub`? -/
def chBegins : List Char → List Char → Bool
  | _, [] => true
  | [], _ :: _ => false
  | c :: cs, d :: ds => c = d && chBegins cs ds

/-- Does the character list `s` contain `sub` as a contiguous run?
Embeds Python's `sub in s` on strings. -/
def chHasSub : List Char → List Char → Bool
  | [], sub => sub.isEmpty
  | c :: cs, sub => chBegins (c :: cs) sub || chHasSub cs sub

/-- Python `sub in s` for strings. -/
def strHasSub (s sub : String) : Bool := chHasSub s.toList sub.toList

/-- Python `s.lower()` (ASCII); semantically `String.toLower`, stated over
the character list so that it evaluates by kernel reduction. -/
def strLower (s : String) : String := String.mk (s.toList.map Char.toLower)

/-- The keyword chain of `_normalize_resource_type` applied to the lowered
type string (agent_service.py lines 334-343). -/
def resourceTypeOfLower (t : String) : String :=
  if strHasSub t "video" then "Video"
  else if strHasSub t "course" then "Course"
  else if strHasSub t "doc" || strHasSub t "documentation" || strHasSub t "docs" then
    "Documentation"
  else if strHasSub t "article" || strHasSub t "blog" || strHasSub t "post" then "Article"
  else "Article"

/-- `AgentWorkflow._normalize_resource_type` (agent_service.py lines 330-343)
on a string argument: map resource type strings to allowed literals. -/
def normalizeResourceType (rawType : String) : String :=
  if rawType = "" then "Article"
  else resourceTypeOfLower (strLower rawType)

/-- `_normalize_resource_type` as invoked by `_normalize_roadmap` on an
arbitrary value: a truthy non-string argument raises `AttributeError` at
`raw_type.lower()`. -/
def normalizeResourceTypeJ (rawType : JValue) : Except String String :=
  if jTruthy rawType = false then .ok "Article"
  else match rawType with
    | .str s => .ok (resourceTypeOfLower (strLower s))
    | _ => .error "AttributeError: lower"

/-- Resource-type canonicalization following the specification text word for
word: case-insensitive, priority order video, course, doc, article/blog/post,
default Article.  Stated per the spec for comparison with
`normalizeResourceType`, which is translated from the source. -/
def normalizeResourceTypeSpec (rawType : String) : String :=
  let t := strLower rawType
  if strHasSub t "video" then "Video"
  else if strHasSub t "course" then "Course"
  else if strHasSub t "doc" then "Documentation"
  else if strHasSub t "article" || strHasSub t "blog" || strHasSub t "post" then "Article"
  else "Article"


/-- Opening JSON delimiter (`ch in` the two-character string of open
brace and open bracket). -/
def isOpenCh (c : Char) : Bool := c = '{' || c = '['

/-- Closing JSON delimiter. -/
def isCloseCh (c : Char) : Bool := c = '}' || c = ']'

/-- The inner loop of `AgentWorkflow._extract_json_substring`
(agent_service.py lines 418-445): walk forward from the character after an
opening delimiter, maintaining the delimiter stack, the in-string flag and
the escape flag.  Returns the number of characters consumed up to and
including the closer that empties the stack, or `none` when the walk dies
(mismatched closer) or the text ends first. -/
def scanBalance : List Char → List Char → Bool → Bool → Option Nat
  | _, [], _, _ => none
  | stack, c :: rest, inStr, esc =>
    if esc then (scanBalance stack rest inStr false).map (· + 1)
    else if c = '\\' then (scanBalance stack rest inStr true).map (· + 1)
    else if c = '"' then (scanBalance stack rest (!inStr) false).map (· + 1)
    else if inStr then (scanBalance stack rest inStr false).map (· + 1)
    else if isOpenCh c then (scanBalance (c :: stack) rest inStr false).map (· + 1)
    else if isCloseCh c then
      match stack with
      | [] => none
      | last :: stackRest =>
        if (last = '{' && c = '}') || (last = '[' && c = ']') then
          match stackRest with
          | [] => some 1
          | _ :: _ => (scanBalance stackRest rest inStr false).map (· + 1)
        else none
    else (scanBalance stack rest inStr false).map (· + 1)

/-- The outer loop of `_extract_json_substring` (lines 415-446): try each
opening delimiter position from left to right; on the first position whose
balanced walk succeeds, return the spanned substring. -/
def extractFrom : List Char → Option (List Char)
  | [] => none
  | c :: rest =>
    if isOpenCh c then
      match scanBalance [c] rest false false with
      | some n => some (c :: rest.take n)
      | none => extractFrom rest
    else extractFrom rest

/-- `AgentWorkflow._extract_json_substring` (agent_service.py lines
413-446): find balanced JSON in text. -/
def extractJsonSubstring (text : String) : Option String :=
  (extractFrom text.toList).map (fun l => String.mk l)

/-- No opening-delimiter position strictly before index `i` starts a
successful balanced walk. -/
def noEarlierSpan (l : List Char) (i : Nat) : Prop :=
  ∀ j c rest, j < i → l.drop j = c :: rest → isOpenCh c = true →
    scanBalance [c] rest false false = none

/-- Every opening-delimiter position of `l` starts a failing walk. -/
def allSpansFail (l : List Char) : Prop :=
  ∀ j c rest, l.drop j = c :: rest → isOpenCh c = true →
    scanBalance [c] rest false false = none

/-- First-match association lookup; Python dict values reaching the service
code come from `json.loads`, whose duplicate keys are collapsed by
`dedupInsert` below, so keys are unique and first-match agrees with Python
dict lookup. -/
def pyLookup : List (String × JValue) → String → Option JValue
  | [], _ => none
  | (k', v) :: rest, k => if k' = k then some v else pyLookup rest k

/-- Python `d.get(k, dflt)` on a known dict. -/
def objGetD (kvs : List (String × JValue)) (k : String) (dflt : JValue) : JValue :=
  (pyLookup kvs k).getD dflt

/-- Python `x.get(k, dflt)` on an arbitrary value: raises `AttributeError`
unless `x` is a dict. -/
def pyGet (m : JValue) (k : String) (dflt : JValue) : Except String JValue :=
  match m with
  | .obj kvs => .ok (objGetD kvs k dflt)
  | _ => .error "AttributeError: get"

/-- Python `a or b`: `a` when truthy, else `b`. -/
def jOr (a b : JValue) : JValue := if jTruthy a then a else b

/-- Python iteration `for x in v`: lists yield elements, dicts yield keys,
strings yield one-character strings; other values raise `TypeError`. -/
def jIterate : JValue → Except String (List JValue)
  | .arr l => .ok l
  | .obj kvs => .ok (kvs.map (fun kv => JValue.str kv.1))
  | .str s => .ok (s.toList.map (fun ch => JValue.str (String.mk [ch])))
  | _ => .error "TypeError: not iterable"

/-- Python `len(v)`: defined for lists, dicts and strings; raises
`TypeError` otherwise. -/
def jLen : JValue → Except String Nat
  | .arr l => .ok l.length
  | .obj kvs => .ok kvs.length
  | .str s => .ok s.toList.length
  | _ => .error "TypeError: len"

/-- Python whitespace for `str.strip` and regex `\s`
(space, tab, newline, carriage return, vertical tab, form feed). -/
def pyWs (c : Char) : Bool :=
  c = ' ' || c = '\t' || c = '\n' || c = '\r' || c = '\x0b' || c = '\x0c'

/-- Python `s.strip()` on a character list. -/
def pyStripChars (l : List Char) : List Char :=
  ((l.dropWhile pyWs).reverse.dropWhile pyWs).reverse

-- JSON serialization, modelled from `json.dumps` with default options
-- (separators ", " and ": ").  Deviation kept deliberately small: characters
-- at or above 0x7f are emitted raw instead of as escape sequences
-- (`ensure_ascii` faithful output would differ in spelling only, and
-- `json.loads` accepts both spellings).

/-- Decimal digit character. -/
def digitChar : Nat → Char
  | 0 => '0' | 1 => '1' | 2 => '2' | 3 => '3' | 4 => '4'
  | 5 => '5' | 6 => '6' | 7 => '7' | 8 => '8' | _ => '9'

/-- Decimal digits of a natural number (fuelled, little work per step). -/
def natDigitsAux : Nat → Nat → List Char → List Char
  | 0, _, acc => acc
  | fuel + 1, n, acc =>
    let d := digitChar (n % 10)
    if n < 10 then d :: acc else natDigitsAux fuel (n / 10) (d :: acc)

/-- Decimal representation of an integer, as `json.dumps` prints it. -/
def intDumpChars (n : Int) : List Char :=
  if n < 0 then '-' :: natDigitsAux (n.natAbs + 1) n.natAbs []
  else natDigitsAux (n.toNat + 1) n.toNat []

/-- Hex digit (lowercase) for `\u00xx` escapes. -/
def hexDigit (n : Nat) : Char :=
  if n < 10 then Char.ofNat (48 + n) else Char.ofNat (87 + n)

/-- JSON string-character encoding as `json.dumps` emits it: the two
mandatory escapes, the five short control escapes, `\u00xx` for the other
control characters, and everything else raw. -/
def jsonEscapeChar (c : Char) : List Char :=
  if c = '"' then ['\\', '"']
  else if c = '\\' then ['\\', '\\']
  else if c = '\n' then ['\\', 'n']
  else if c = '\t' then ['\\', 't']
  else if c = '\r' then ['\\', 'r']
  else if c = '\x08' then ['\\', 'b']
  else if c = '\x0c' then ['\\', 'f']
  else if c.toNat < 32 then
    ['\\', 'u', '0', '0', hexDigit (c.toNat / 16), hexDigit (c.toNat % 16)]
  else [c]

/-- JSON string literal for `s`, quotes included. -/
def strDumpChars (s : String) : List Char :=
  '"' :: (s.toList.flatMap jsonEscapeChar) ++ ['"']

mutual

/-- `json.dumps` of a value, as a character list. -/
def jdumpChars : JValue → List Char
  | .null => "null".toList
  | .bool true => "true".toList
  | .bool false => "false".toList
  | .num n => intDumpChars n
  | .str s => strDumpChars s
  | .arr l => '[' :: jdumpElems l ++ [']']
  | .obj kvs => '{' :: jdumpFields kvs ++ ['}']

/-- Comma-separated element list of a dumped JSON array. -/
def jdumpElems : List JValue → List Char
  | [] => []
  | [v] => jdumpChars v
  | v :: rest => jdumpChars v ++ ',' :: ' ' :: jdumpElems rest

/-- Comma-separated member list of a dumped JSON object. -/
def jdumpFields : List (String × JValue) → List Char
  | [] => []
  | [(k, v)] => strDumpChars k ++ ':' :: ' ' :: jdumpChars v
  | (k, v) :: rest => strDumpChars k ++ ':' :: ' ' :: jdumpChars v ++ ',' :: ' ' :: jdumpFields rest

end

/-- `json.dumps(v)`. -/
def jdump (v : JValue) : String := String.mk (jdumpChars v)

-- JSON parsing, modelled from `json.loads` (strict mode).  Two modelling
-- restrictions, documented here once: float literals are treated as parse
-- failures (JValue has no float constructor; no claim depends on floats),
-- and `\uXXXX` escapes decode code units without combining surrogate pairs.

/-- JSON whitespace accepted between tokens by `json.loads`. -/
def jsonWsCh (c : Char) : Bool := c = ' ' || c = '\t' || c = '\n' || c = '\r'

/-- Drop JSON whitespace. -/
def skipWs (l : List Char) : List Char := l.dropWhile jsonWsCh

/-- Value of a hex digit character. -/
def hexVal (c : Char) : Option Nat :=
  if '0' ≤ c ∧ c ≤ '9' then some (c.toNat - 48)
  else if 'a' ≤ c ∧ c ≤ 'f' then some (c.toNat - 87)
  else if 'A' ≤ c ∧ c ≤ 'F' then some (c.toNat - 55)
  else none

/-- Body of a JSON string literal, after the opening quote: returns the
decoded characters and the input following the closing quote.  Strict mode:
raw control characters below 0x20 are rejected. -/
def parseStrBody : List Char → Option (List Char × List Char)
  | [] => none
  | c :: rest =>
    if c = '"' then some ([], rest)
    else if c = '\\' then
      match rest with
      | [] => none
      | e :: r2 =>
        if e = '"' then (parseStrBody r2).map (fun p => ('"' :: p.1, p.2))
        else if e = '\\' then (parseStrBody r2).map (fun p => ('\\' :: p.1, p.2))
        else if e = '/' then (parseStrBody r2).map (fun p => ('/' :: p.1, p.2))
        else if e = 'b' then (parseStrBody r2).map (fun p => ('\x08' :: p.1, p.2))
        else if e = 'f' then (parseStrBody r2).map (fun p => ('\x0c' :: p.1, p.2))
        else if e = 'n' then (parseStrBody r2).map (fun p => ('\n' :: p.1, p.2))
        else if e = 'r' then (parseStrBody r2).map (fun p => ('\r' :: p.1, p.2))
        else if e = 't' then (parseStrBody r2).map (fun p => ('\t' :: p.1, p.2))
        else if e = 'u' then
          match r2 with
          | h1 :: h2 :: h3 :: h4 :: r3 =>
            match hexVal h1, hexVal h2, hexVal h3, hexVal h4 with
            | some a, some b, some cc, some d =>
              (parseStrBody r3).map (fun p =>
                (Char.ofNat (a * 4096 + b * 256 + cc * 16 + d) :: p.1, p.2))
            | _, _, _, _ => none
          | _ => none
        else none
    else if c.toNat < 32 then none
    else (parseStrBody rest).map (fun p => (c :: p.1, p.2))

/-- Longest digit prefix. -/
def takeDigits : List Char → List Char × List Char
  | [] => ([], [])
  | c :: rest =>
    if c.isDigit then
      let p := takeDigits rest
      (c :: p.1, p.2)
    else ([], c :: rest)

/-- Numeric value of a digit list. -/
def digitsToNat (acc : Nat) : List Char → Nat
  | [] => acc
  | c :: rest => digitsToNat (acc * 10 + (c.toNat - 48)) rest

/-- JSON integer literal per the JSON number grammar (no leading zeros); a
fraction or exponent marker after the integer part means a float literal,
which this model treats as a parse failure. -/
def parseJsonInt (l : List Char) : Option (Int × List Char) :=
  let p : Bool × List Char :=
    match l with
    | c :: t => if c = '-' then (true, t) else (false, c :: t)
    | [] => (false, [])
  let neg := p.1
  let l1 := p.2
  match takeDigits l1 with
  | ([], _) => none
  | (ds, rest) =>
    if ds.length > 1 ∧ ds.headI = '0' then none
    else match rest with
      | c :: _ =>
        if c = '.' ∨ c = 'e' ∨ c = 'E' then none
        else some (if neg then -(digitsToNat 0 ds : Int) else (digitsToNat 0 ds : Int), rest)
      | [] => some (if neg then -(digitsToNat 0 ds : Int) else (digitsToNat 0 ds : Int), [])

/-- Insert a parsed object member, collapsing duplicate keys the way a
Python dict displays them: first occurrence keeps its position, last
occurrence keeps its value. -/
def dedupInsert (k : String) (v : JValue) (kvs : List (String × JValue)) :
    List (String × JValue) :=
  match pyLookup kvs k with
  | some v' => (k, v') :: kvs.filter (fun kv => kv.1 ≠ k)
  | none => (k, v) :: kvs

mutual

/-- `json.loads` value parser (fuelled; every recursive call consumes
fuel, and the fuel supplied by `jparse` is ample for its input). -/
def parseVal : Nat → List Char → Option (JValue × List Char)
  | 0, _ => none
  | fuel + 1, l =>
    match skipWs l with
    | [] => none
    | c :: rest =>
      if c = '{' then
        match skipWs rest with
        | '}' :: r2 => some (.obj [], r2)
        | _ =>
          match parseMembers fuel rest with
          | some (kvs, r2) => some (.obj kvs, r2)
          | none => none
      else if c = '[' then
        match skipWs rest with
        | ']' :: r2 => some (.arr [], r2)
        | _ =>
          match parseElems fuel rest with
          | some (vs, r2) => some (.arr vs, r2)
          | none => none
      else if c = '"' then
        match parseStrBody rest with
        | some (cs, r2) => some (.str (String.mk cs), r2)
        | none => none
      else if c = 't' then
        if rest.take 3 = "rue".toList then some (.bool true, rest.drop 3) else none
      else if c = 'f' then
        if rest.take 4 = "alse".toList then some (.bool false, rest.drop 4) else none
      else if c = 'n' then
        if rest.take 3 = "ull".toList then some (.null, rest.drop 3) else none
      else
        match parseJsonInt (c :: rest) with
        | some (n, r2) => some (.num n, r2)
        | none => none

/-- Non-empty comma-separated array elements, consuming the closing
bracket. -/
def parseElems : Nat → List Char → Option (List JValue × List Char)
  | 0, _ => none
  | fuel + 1, l =>
    match parseVal fuel l with
    | none => none
    | some (v, rest) =>
      match skipWs rest with
      | ',' :: r2 =>
        match parseElems fuel r2 with
        | some (vs, r3) => some (v :: vs, r3)
        | none => none
      | ']' :: r2 => some ([v], r2)
      | _ => none

/-- Non-empty comma-separated object members, consuming the closing
brace. -/
def parseMembers : Nat → List Char → Option (List (String × JValue) × List Char)
  | 0, _ => none
  | fuel + 1, l =>
    match skipWs l with
    | '"' :: rest =>
      match parseStrBody rest with
      | none => none
      | some (kcs, r2) =>
        match skipWs r2 with
        | ':' :: r3 =>
          match parseVal fuel r3 with
          | none => none
          | some (v, r4) =>
            match skipWs r4 with
            | ',' :: r5 =>
              match parseMembers fuel r5 with
              | some (kvs, r6) => some (dedupInsert (String.mk kcs) v kvs, r6)
              | none => none
            | '}' :: r5 => some ([(String.mk kcs, v)], r5)
            | _ => none
        | _ => none
    | _ => none

end

/-- `json.loads(s)`: parse one value, allowing surrounding whitespace and
nothing else. -/
def jparse (s : String) : Option JValue :=
  match parseVal (2 * s.toList.length + 2) s.toList with
  | some (v, rest) => if skipWs rest = [] then some v else none
  | none => none

-- The fenced-block search of `_clean_json` (agent_service.py line 450):
-- `re.search` of three backticks, an optional case-insensitive json tag,
-- greedy whitespace, a lazy dot-all group, whitespace, three backticks.

/-- The backtick character. -/
def btk : Char := Char.ofNat 96

/-- Does the text start with three backticks? -/
def isFenceAt : List Char → Bool
  | a :: b :: c :: _ => a = btk && b = btk && c = btk
  | _ => false

/-- Can the rest of the pattern (whitespace then closing fence) match at
this point?  Implements the backtracking of the greedy trailing `\s*`. -/
def wsThenFence : List Char → Bool
  | [] => false
  | c :: rest => isFenceAt (c :: rest) || (pyWs c && wsThenFence rest)

/-- Lazy group: the shortest prefix whose remainder is whitespace followed
by a closing fence; `none` when no closing fence follows. -/
def lazyGroup : List Char → Option (List Char)
  | [] => none
  | c :: rest =>
    if wsThenFence (c :: rest) then some []
    else (lazyGroup rest).map (fun g => c :: g)

/-- Match the pattern after the opening fence and optional json tag:
greedy leading whitespace, then the lazy group. -/
def fenceTailMatch (l : List Char) : Option (List Char) :=
  lazyGroup (l.dropWhile pyWs)

/-- Match the pattern after the opening fence: the optional case-insensitive
json tag is tried greedily first, with backtrack to the untagged branch. -/
def fenceAfterOpen (l : List Char) : Option (List Char) :=
  if (l.take 4).map Char.toLower = "json".toList then
    match fenceTailMatch (l.drop 4) with
    | some g => some g
    | none => fenceTailMatch l
  else fenceTailMatch l

/-- `re.search` of the fence pattern: leftmost position with a full match;
the returned value is the group (the fenced content). -/
def findFence : List Char → Option (List Char)
  | [] => none
  | c :: rest =>
    if isFenceAt (c :: rest) then
      match fenceAfterOpen rest.tail.tail with
      | some g => some g
      | none => findFence rest
    else findFence rest

/-- The candidate selection of `_clean_json` (agent_service.py lines
450-455): the stripped fenced group when a fenced block matches, otherwise
the balanced-span scan. -/
def candidateOf (textResponse : String) : Option (List Char) :=
  match findFence textResponse.toList with
  | some g => some (pyStripChars g)
  | none => extractFrom textResponse.toList

/-- `AgentWorkflow._clean_json` (agent_service.py lines 448-471): extract
and parse JSON from a model response.  Returns the parsed value together
with the diagnostics printed on the failure paths; failure returns the
empty list value, as the source returns `[]`. -/
def cleanJsonFull (textResponse : String) : JValue × List String :=
  match candidateOf textResponse with
  | none => (.arr [], ["Failed to parse JSON: no JSON-like substring found in response"])
  | some c =>
    if c.isEmpty then
      (.arr [], ["Failed to parse JSON: no JSON-like substring found in response"])
    else
      match jparse (String.mk c) with
      | some v => (v, [])
      | none =>
        match extractFrom c with
        | some inner =>
          match jparse (String.mk inner) with
          | some v => (v, [])
          | none => (.arr [], ["Failed to parse JSON: " ++ String.mk (c.take 300)])
        | none => (.arr [], ["Failed to parse JSON: " ++ String.mk (c.take 300)])

/-- The value computed by `_clean_json`, diagnostics dropped. -/
def cleanJson (textResponse : String) : JValue := (cleanJsonFull textResponse).1

-- The schema normalizer `_normalize_roadmap` (agent_service.py 350-411).

/-- First list-valued entry among a dict's values, or the empty list
(the for-loop with break at lines 365-368). -/
def firstArrValue : List (String × JValue) → List JValue
  | [] => []
  | (_, .arr l) :: _ => l
  | _ :: rest => firstArrValue rest

/-- Input-shape resolution of `_normalize_roadmap` (lines 352-370): the
falsy check, the learning_path / roadmap key search, the single-module
wrap, the first list-valued entry fallback. -/
def resolveModules (raw : JValue) : List JValue :=
  if jTruthy raw = false then []
  else match raw with
    | .obj kvs =>
      match pyLookup kvs "learning_path" with
      | some (.arr l) => l
      | _ =>
        match pyLookup kvs "roadmap" with
        | some (.arr l) => l
        | _ =>
          if (pyLookup kvs "module_name").isSome then [raw]
          else firstArrValue kvs
    | .arr l => l
    | _ => []

/-- Input-shape resolution following the specification text word for word
(sequence used directly; keyed container searched for the conventional
path/roadmap keys holding a sequence; container recognizable as a single
module wrapped as a singleton; first sequence-valued entry; else empty).
Stated per the spec for comparison with `resolveModules`, which is
translated from the source. -/
def resolveModulesSpec (raw : JValue) : List JValue :=
  match raw with
  | .arr l => l
  | .obj kvs =>
    match pyLookup kvs "learning_path" with
    | some (.arr l) => l
    | _ =>
      match pyLookup kvs "roadmap" with
      | some (.arr l) => l
      | _ =>
        if (pyLookup kvs "module_name").isSome then [raw]
        else firstArrValue kvs
  | _ => []

/-- `_ensure_url` (agent_service.py lines 345-348). -/
def ensureUrl (url : JValue) : String :=
  match url with
  | .str s =>
    if s = "" ∨ pyStripChars s.toList = [] then "https://example.com"
    else String.mk (pyStripChars s.toList)
  | _ => "https://example.com"

/-- Per-resource normalization (lines 384-399): alias chains for title,
url, type, duration, reason; non-dict entries are skipped by the caller.
The type chain can raise through `_normalize_resource_type` on a truthy
non-string type value. -/
def normResource (kvs : List (String × JValue)) : Except String JValue := do
  let title := jOr (objGetD kvs "title" .null) (jOr (objGetD kvs "name" .null) (.str "Untitled Resource"))
  let url := ensureUrl (jOr (objGetD kvs "url" .null) (jOr (objGetD kvs "link" .null) (.str "")))
  let rawType := jOr (objGetD kvs "type" .null) (jOr (objGetD kvs "format" .null) (.str ""))
  let rtype ← normalizeResourceTypeJ rawType
  let duration := jOr (objGetD kvs "duration" .null) (jOr (objGetD kvs "length" .null) (.str ""))
  let reason := jOr (objGetD kvs "reason" .null) (jOr (objGetD kvs "why" .null) (.str ""))
  pure (.obj [("title", title), ("url", .str url), ("type", .str rtype),
              ("duration", duration), ("reason", reason)])

/-- Body of the resource loop: process the iterated resource entries,
skipping non-dict entries. -/
def normResourcesLoop : List JValue → Except String (List JValue)
  | [] => .ok []
  | .obj kvs :: rest =>
    (match normResource kvs with
     | .error e => .error e
     | .ok r =>
       match normResourcesLoop rest with
       | .error e => .error e
       | .ok tail => .ok (r :: tail))
  | _ :: rest => normResourcesLoop rest

/-- The resource loop (lines 383-399): iterate the raw resources value
(raising `TypeError` when it is not iterable), skipping non-dict entries. -/
def normResources (rawResources : JValue) : Except String (List JValue) := do
  let elems ← jIterate rawResources
  normResourcesLoop elems

/-- Per-module normalization (lines 373-409) of a dict entry at enumeration
index `idx`: alias chains, skill coercion, resource normalization, and the
identifier `idx + 1`. -/
def normModule (idx : Nat) (kvs : List (String × JValue)) : Except String JValue :=
  let moduleName := jOr (objGetD kvs "module_name" .null) (jOr (objGetD kvs "title" .null)
    (jOr (objGetD kvs "name" .null) (.str ("Module " ++ toString (idx + 1)))))
  let description := jOr (objGetD kvs "description" .null) (jOr (objGetD kvs "desc" .null) (.str ""))
  let skills := jOr (objGetD kvs "skills_covered" .null) (jOr (objGetD kvs "skills" .null) (.arr []))
  let whyNeeded := jOr (objGetD kvs "why_needed" .null) (jOr (objGetD kvs "why" .null) (.str ""))
  let estimatedTime := jOr (objGetD kvs "estimated_time" .null) (jOr (objGetD kvs "duration" .null) (.str ""))
  let rawResources := jOr (objGetD kvs "resources" .null) (.arr [])
  match normResources rawResources with
  | .error e => .error e
  | .ok resources =>
    .ok (.obj [("id", .num (idx + 1)),
               ("module_name", moduleName),
               ("description", description),
               ("skills_covered", match skills with | .arr _ => skills | v => .arr [v]),
               ("resources", .arr resources),
               ("why_needed", whyNeeded),
               ("estimated_time", estimatedTime)])

/-- The module loop of `_normalize_roadmap` (lines 372-409): enumerate the
resolved module list, skipping non-dict entries while the enumeration index
keeps advancing. -/
def normalizeModulesLoop (idx : Nat) : List JValue → Except String (List JValue)
  | [] => .ok []
  | .obj kvs :: rest =>
    (match normModule idx kvs with
     | .error e => .error e
     | .ok nm =>
       match normalizeModulesLoop (idx + 1) rest with
       | .error e => .error e
       | .ok tail => .ok (nm :: tail))
  | _ :: rest => normalizeModulesLoop (idx + 1) rest

/-- `AgentWorkflow._normalize_roadmap` (agent_service.py lines 350-411). -/
def normalizeRoadmap (raw : JValue) : Except String (List JValue) :=
  normalizeModulesLoop 0 (resolveModules raw)

/-- Is the value a dict? -/
def isObjB : JValue → Bool
  | .obj _ => true
  | _ => false

/-- The id field of a normalized module. -/
def moduleIdOf : JValue → Option JValue
  | .obj kvs => pyLookup kvs "id"
  | _ => none

/-- The id fields of the normalized modules. -/
def moduleIds (mods : List JValue) : List (Option JValue) :=
  mods.map moduleIdOf

/-- The identifiers the normalizer assigns: one per recognized (dict) entry
of the resolved module list, valued at its enumeration position plus 1. -/
def recognizedIds (mods : List JValue) : List (Option JValue) :=
  ((mods.enum).filter (fun p => isObjB p.2)).map (fun p => some (.num (p.1 + 1)))

-- The resource enrichment engine (`_fetch_real_youtube_videos`,
-- `_enrich_resources_with_real_links`, agent_service.py lines 102-193).
-- A provider is the `search_for_module` capability of the configured
-- search service: it receives the module name and skills values as they
-- come out of the curated JSON, the target role, and the requested count,
-- and either returns candidate video resources or raises.

/-- Provider capability (`search_for_module`). -/
def ProviderFun : Type :=
  JValue → JValue → String → Nat → Except String (List JValue)

/-- `AgentWorkflow._fetch_real_youtube_videos` (agent_service.py lines
102-134): no configured service yields no candidates; a raising service is
caught and yields no candidates. -/
def fetchRealYoutubeVideos (svc : Option ProviderFun) (moduleName skills : JValue)
    (targetRole : String) (count : Nat) : List JValue :=
  match svc with
  | none => []
  | some f =>
    match f moduleName skills targetRole count with
    | .ok videos => videos
    | .error _ => []

/-- Python `r.get("type", "").lower() == "video"` (lines 160-161): raises
`AttributeError` when the entry is not a dict or its type value is not a
string. -/
def resTypeIsVideo (r : JValue) : Except String Bool := do
  let t ← pyGet r "type" (.str "")
  match t with
  | .str s => pure (decide (strLower s = "video"))
  | _ => .error "AttributeError: lower"

/-- A Python filtering list comprehension whose predicate may raise. -/
def filterExcept (p : JValue → Except String Bool) : List JValue → Except String (List JValue)
  | [] => .ok []
  | r :: rest => do
    let b ← p r
    let tail ← filterExcept p rest
    pure (if b then r :: tail else tail)

/-- Replace the value bound to `k`, keeping its position. -/
def replaceKey (k : String) (v : JValue) : List (String × JValue) → List (String × JValue)
  | [] => []
  | (k2, v2) :: rest =>
    if k2 = k then (k, v) :: replaceKey k v rest
    else (k2, v2) :: replaceKey k v rest

/-- Python `{**module, "resources": v}`: an existing key keeps its position
and takes the new value, a new key is appended at the end. -/
def objUpdate (kvs : List (String × JValue)) (k : String) (v : JValue) :
    List (String × JValue) :=
  if (pyLookup kvs k).isSome then replaceKey k v kvs
  else kvs ++ [(k, v)]

/-- The per-module video quota (lines 163-172). -/
def videoQuota (preferredStyle : String) (videoResources : List JValue) : Nat :=
  if preferredStyle = "Video" then max 3 videoResources.length
  else if !videoResources.isEmpty then videoResources.length
  else 2

/-- The per-module body of the enrichment loop (lines 152-191). -/
def enrichOne (f : ProviderFun) (targetRole preferredStyle : String)
    (module : JValue) : Except String JValue :=
  match module with
  | .obj kvs => do
    let moduleName := objGetD kvs "module_name" (.str "")
    let skills := objGetD kvs "skills_covered" (.arr [])
    let resources := objGetD kvs "resources" (.arr [])
    let resElems ← jIterate resources
    let videoResources ← filterExcept resTypeIsVideo resElems
    let otherResources ←
      filterExcept (fun r => (resTypeIsVideo r).map (fun b => !b)) resElems
    let realVideos := fetchRealYoutubeVideos (some f) moduleName skills targetRole
      (videoQuota preferredStyle videoResources)
    let newResources : JValue :=
      if !realVideos.isEmpty then .arr (realVideos ++ otherResources)
      else resources
    pure (.obj (objUpdate kvs "resources" newResources))
  | _ => .error "AttributeError: get"

/-- The candidates the provider query yields for one module: the value
`real_videos` takes inside the loop body, exposed for stating the
no-candidates condition of the degradation guarantee. -/
def moduleFetchResult (f : ProviderFun) (targetRole preferredStyle : String)
    (module : JValue) : Except String (List JValue) :=
  match module with
  | .obj kvs => do
    let moduleName := objGetD kvs "module_name" (.str "")
    let skills := objGetD kvs "skills_covered" (.arr [])
    let resources := objGetD kvs "resources" (.arr [])
    let resElems ← jIterate resources
    let videoResources ← filterExcept resTypeIsVideo resElems
    pure (fetchRealYoutubeVideos (some f) moduleName skills targetRole
      (videoQuota preferredStyle videoResources))
  | _ => .error "AttributeError: get"

/-- Sequential mapping of a fallible body over a list (the enrichment
for-loop building `enriched_modules`). -/
def mapExcept (f : JValue → Except String JValue) : List JValue → Except String (List JValue)
  | [] => .ok []
  | m :: rest => do
    let v ← f m
    let tail ← mapExcept f rest
    pure (v :: tail)

/-- `AgentWorkflow._enrich_resources_with_real_links` (agent_service.py
lines 136-193): with no service configured the input is returned as is;
otherwise every entry of the iterated input is enriched in order. -/
def enrichResources (svc : Option ProviderFun) (modules : JValue)
    (targetRole preferredStyle : String) : Except String JValue :=
  match svc with
  | none => .ok modules
  | some f => do
    let elems ← jIterate modules
    let out ← mapExcept (enrichOne f targetRole preferredStyle) elems
    pure (.arr out)

/-- The resource list of a module as the engine reads it
(`module.get("resources", [])`). -/
def resourcesOf (m : JValue) : JValue :=
  match m with
  | .obj kvs => objGetD kvs "resources" (.arr [])
  | _ => .null

/-- A module with its resources field removed; equality of these values
states that everything but the resource list is unchanged, in order. -/
def delResources (m : JValue) : JValue :=
  match m with
  | .obj kvs => .obj (kvs.filter (fun kv => !decide (kv.1 = "resources")))
  | _ => m

/-- Well-formed resource entry: a dict whose type value, when present, is a
string. -/
def wfResource (r : JValue) : Bool :=
  match r with
  | .obj kvs =>
    match pyLookup kvs "type" with
    | none => true
    | some (.str _) => true
    | some _ => false
  | _ => false

/-- Well-formed module record: a dict whose resources value, when present,
is a list of well-formed resource entries. -/
def wfModule (m : JValue) : Bool :=
  match m with
  | .obj kvs =>
    match pyLookup kvs "resources" with
    | none => true
    | some (.arr rs) => rs.all wfResource
    | some _ => false
  | _ => false

-- The metrics-aware provider's ranking (`YouTubeSearchService.search_videos`
-- lines 75-101 and `get_video_details` lines 144-163, youtube_service.py).
-- The HTTP retrieval and the join with the details response are external
-- I/O; the embedding takes the joined candidate records (those that
-- appeared in the details response) as input and covers the quality
-- filter, the sort and the truncation.

/-- A candidate video after the join with its statistics: the fields the
ranking inspects (`views` is the parsed integer of the view-count string;
the quality ratio is carried as a rational, embedding the float). -/
structure Candidate where
  title : String
  views : Nat
  likes : Nat
  likesRatio : ℚ
deriving DecidableEq

/-- The quality metric of `get_video_details` (youtube_service.py line
154): likes/views*100 when views is positive, else 0. -/
def likesRatioOf (views likes : Nat) : ℚ :=
  if 0 < views then (likes : ℚ) / (views : ℚ) * 100 else 0

/-- The fixed view-count floor (line 87). -/
def viewFloor : Nat := 1000

/-- Descending comparison on the Python sort key
`(likes_ratio, views)` with `reverse=True`. -/
def rankKeyLe (a b : Candidate) : Bool :=
  decide (b.likesRatio < a.likesRatio ∨
    (b.likesRatio = a.likesRatio ∧ b.views ≤ a.views))

/-- Stable insertion for the embedding of Python's stable `list.sort`. -/
def stableInsert (le : Candidate → Candidate → Bool) (a : Candidate) :
    List Candidate → List Candidate
  | [] => [a]
  | b :: rest => if le a b then a :: b :: rest else b :: stableInsert le a rest

/-- Stable sort (insertion sort): Python's `list.sort` is stable, and a
stable sort's output is determined by the key alone, so insertion sort is
an exact embedding of the sort at youtube_service.py lines 91-97. -/
def stableSort (le : Candidate → Candidate → Bool) : List Candidate → List Candidate
  | [] => []
  | a :: rest => stableInsert le a (stableSort le rest)

/-- The quality filter, sort and truncation of `search_videos` (lines
81-99): keep candidates at or above the view floor, order by quality ratio
descending then view count descending, return the first `maxResults`. -/
def searchVideosRank (candidates : List Candidate) (maxResults : Nat) : List Candidate :=
  (stableSort rankKeyLe (candidates.filter (fun c => viewFloor ≤ c.views))).take maxResults

/-- Concrete candidate with 500 views carrying the best quality ratio
(450 likes: ratio 90, as `likesRatioOf 500 450` computes). -/
def cand500 : Candidate := ⟨"v500", 500, 450, 90⟩

/-- Concrete candidate with 2000 views and ratio 10 (200 likes). -/
def cand2000 : Candidate := ⟨"v2000", 2000, 200, 10⟩

/-- Concrete candidate with 5000 views and ratio 2 (100 likes). -/
def cand5000 : Candidate := ⟨"v5000", 5000, 100, 2⟩

-- The pipeline controller `generate_learning_path` (agent_service.py lines
-- 195-258).  The generative-text client is the call oracle `gen` (call
-- index, prompt); prompt templates are abstract builders; wall-clock
-- timestamps come from `clock` (log index); the optional database session
-- of the constructor is absent (a supported configuration - every db
-- branch is guarded by `if self.db`); the final pydantic response-model
-- construction is the out-of-scope wire boundary.

/-- `UserProfile` (app/models/schemas.py). -/
structure Profile where
  name : String
  currentRole : String
  targetRole : String
  currentSkills : List String
  preferredStyle : String
  experienceLevel : String
deriving DecidableEq

/-- `AgentLog` entries accumulated by `_log`. -/
structure LogEntry where
  agent : String
  action : String
  timestamp : String
deriving DecidableEq

/-- The four prompt templates of app/utils/prompts.py, as abstract builders
(market: target role; architect: current skills, target role, market dump;
curator: preferred style, modules dump; critic: curated dump). -/
structure Prompts where
  market : String → String
  architect : List String → String → String → String
  curator : String → String → String
  critic : String → String

/-- Comma-separated decimal items of a Python int-list repr. -/
def formatIntListInner : List Int → String
  | [] => ""
  | [n] => String.mk (intDumpChars n)
  | n :: rest => String.mk (intDumpChars n) ++ ", " ++ formatIntListInner rest

/-- Python `str` of an int list, as interpolated into the progress note. -/
def formatIntList (l : List Int) : String :=
  "[" ++ formatIntListInner l ++ "]"

/-- The completed-modules advisory note (lines 198-200); the empty list is
falsy and produces no note. -/
def progressNote (completedModuleIds : Option (List Int)) : String :=
  match completedModuleIds with
  | some ids =>
    if ids.isEmpty then ""
    else "\n\nNOTE: The learner has completed modules with ids: " ++ formatIntList ids ++
      ". When creating the updated path, skip or adapt content for those completed modules."
  | none => ""

/-- `AgentWorkflow.generate_learning_path` (agent_service.py lines
195-258): the four-stage pipeline.  Returns the accumulated log entries
together with either the error carried by the first raising operation or
the pair of the market analysis and the normalized roadmap. -/
def generateLearningPath (P : Prompts) (svc : Option ProviderFun)
    (gen : Nat → String → Except String String) (clock : Nat → String)
    (profile : Profile) (completedModuleIds : Option (List Int)) :
    List LogEntry × Except String (JValue × List JValue) :=
  let note := progressNote completedModuleIds
  let logs0 := [⟨"Market Analyst", "Scanning job boards for '" ++ profile.targetRole ++ "'...", clock 0⟩]
  match gen 0 (P.market profile.targetRole) with
  | .error e => (logs0, .error e)
  | .ok t0 =>
    let marketData := cleanJson t0
    match jLen marketData with
    | .error e => (logs0, .error e)
    | .ok n0 =>
      let logs2 := logs0 ++
        [⟨"Market Analyst", "Identified " ++ toString n0 ++ " critical skills.", clock 1⟩,
         ⟨"Architect", "Designing curriculum structure based on gap analysis...", clock 2⟩]
      match gen 1 (P.architect profile.currentSkills profile.targetRole (jdump marketData) ++ note) with
      | .error e => (logs2, .error e)
      | .ok t1 =>
        let structureData := cleanJson t1
        match jLen structureData with
        | .error e => (logs2, .error e)
        | .ok n1 =>
          let logs4 := logs2 ++
            [⟨"Architect", "Created " ++ toString n1 ++ " modules.", clock 3⟩,
             ⟨"Curator", "Sourcing " ++ profile.preferredStyle ++ " resources for modules...", clock 4⟩]
          match gen 2 (P.curator profile.preferredStyle (jdump structureData) ++ note) with
          | .error e => (logs4, .error e)
          | .ok t2 =>
            let curatedData := cleanJson t2
            let logs5 := logs4 ++
              [⟨"Curator", "Fetching real YouTube videos from YouTube API for all modules...", clock 5⟩]
            match enrichResources svc curatedData profile.targetRole profile.preferredStyle with
            | .error e => (logs5, .error e)
            | .ok curated2 =>
              let logs7 := logs5 ++
                [⟨"Curator", "Real video links integrated successfully for all modules.", clock 6⟩,
                 ⟨"Critic", "Validating logical flow and prerequisites...", clock 7⟩]
              match gen 3 (P.critic (jdump curated2) ++ note) with
              | .error e => (logs7, .error e)
              | .ok t3 =>
                let finalRoadmap := cleanJson t3
                let logs8 := logs7 ++ [⟨"System", "Roadmap generation complete.", clock 8⟩]
                match normalizeRoadmap finalRoadmap with
                | .error e => (logs8, .error e)
                | .ok normalized => (logs8, .ok (marketData, normalized))

/-- The full log list of a successful run (stage lines in emission order),
given the two reported lengths. -/
def expectedLogs (profile : Profile) (clock : Nat → String) (n0 n1 : Nat) : List LogEntry :=
  [⟨"Market Analyst", "Scanning job boards for '" ++ profile.targetRole ++ "'...", clock 0⟩,
   ⟨"Market Analyst", "Identified " ++ toString n0 ++ " critical skills.", clock 1⟩,
   ⟨"Architect", "Designing curriculum structure based on gap analysis...", clock 2⟩,
   ⟨"Architect", "Created " ++ toString n1 ++ " modules.", clock 3⟩,
   ⟨"Curator", "Sourcing " ++ profile.preferredStyle ++ " resources for modules...", clock 4⟩,
   ⟨"Curator", "Fetching real YouTube videos from YouTube API for all modules...", clock 5⟩,
   ⟨"Curator", "Real video links integrated successfully for all modules.", clock 6⟩,
   ⟨"Critic", "Validating logical flow and prerequisites...", clock 7⟩,
   ⟨"System", "Roadmap generation complete.", clock 8⟩]

/-- Concrete prompt builders for the counterexample run (the oracle ignores
prompts). -/
def promptsFixed : Prompts := ⟨fun _ => "", fun _ _ _ => "", fun _ _ => "", fun _ => ""⟩

/-- Concrete profile for the counterexample run. -/
def profileFixed : Profile := ⟨"Alex", "Student", "React Developer", ["HTML", "CSS"], "Video", "Beginner"⟩

/-- Call oracle of the counterexample run: every call succeeds; the curator
call returns a dict-shaped (not list-shaped) JSON payload. -/
def genDictCurator : Nat → String → Except String String :=
  fun i _ => .ok (if i = 2 then "\x7b\"a\": [1]\x7d" else "[]")

/-- A provider that is configured and always finds nothing. -/
def svcNoFind : ProviderFun := fun _ _ _ _ => .ok []

-- Infrastructure for the extraction-idempotence analysis (C9): sizes,
-- well-formedness, and a compositional view of the balanced-span scan.

mutual

/-- Structural size of a value (drives the parser fuel argument). -/
def sizeJ : JValue → Nat
  | .null => 1
  | .bool _ => 1
  | .num _ => 1
  | .str _ => 1
  | .arr l => sizeL l + 1
  | .obj kvs => sizeF kvs + 1

/-- Structural size of an element list. -/
def sizeL : List JValue → Nat
  | [] => 0
  | v :: rest => sizeJ v + sizeL rest + 1

/-- Structural size of a field list. -/
def sizeF : List (String × JValue) → Nat
  | [] => 0
  | (_, v) :: rest => sizeJ v + sizeF rest + 1

end

/-- No string in the list equals the given key. -/
def keyAbsent (k : String) : List (String × JValue) → Bool
  | [] => true
  | (k2, _) :: rest => !(k2 = k) && keyAbsent k rest

mutual

/-- Well-formed value for the round-trip statement: object keys are
pairwise distinct (a value produced by a Python dict always is), and no
string or key contains a backtick (so the serialized text cannot contain a
code fence). -/
def jwf : JValue → Bool
  | .null => true
  | .bool _ => true
  | .num _ => true
  | .str s => !s.toList.contains btk
  | .arr l => jwfL l
  | .obj kvs => jwfF kvs

/-- Well-formed element list. -/
def jwfL : List JValue → Bool
  | [] => true
  | v :: rest => jwf v && jwfL rest

/-- Well-formed field list: backtick-free distinct keys, well-formed
values. -/
def jwfF : List (String × JValue) → Bool
  | [] => true
  | (k, v) :: rest => !k.toList.contains btk && keyAbsent k rest && jwf v && jwfF rest

end

/-- Is the value an array or an object (the shapes whose serialization is
brace- or bracket-rooted)? -/
def rootContainer : JValue → Bool
  | .arr _ => true
  | .obj _ => true
  | _ => false

/-- The characters after a serialized number that keep the number parse
faithful: nothing, or a character that neither extends the digit run nor
marks a float.  Every separator and closer of the JSON syntax qualifies. -/
def numBoundary : List Char → Prop
  | [] => True
  | c :: _ => c.isDigit = false ∧ c ≠ '.' ∧ c ≠ 'e' ∧ c ≠ 'E'

/-- Outcome of running the balanced-span walk over a chunk of input:
success after consuming n characters, a dead walk, or an intermediate
state (stack, in-string flag, escape flag) with input exhausted. -/
inductive ScanRes where
  | success (n : Nat) : ScanRes
  | dead : ScanRes
  | more (stack : List Char) (inStr esc : Bool) : ScanRes

/-- Shift the consumed-character count of a success by the length of a
preceding chunk. -/
def ScanRes.addLen (len : Nat) : ScanRes → ScanRes
  | .success n => .success (n + len)
  | .dead => .dead
  | .more stack inStr esc => .more stack inStr esc

/-- The balanced-span walk of `scanBalance`, with explicit intermediate
states (used to compose walks over concatenated input). -/
def runScan : List Char → List Char → Bool → Bool → ScanRes
  | stack, [], inStr, esc => .more stack inStr esc
  | stack, c :: rest, inStr, esc =>
    if esc then (runScan stack rest inStr false).addLen 1
    else if c = '\\' then (runScan stack rest inStr true).addLen 1
    else if c = '"' then (runScan stack rest (!inStr) false).addLen 1
    else if inStr then (runScan stack rest inStr false).addLen 1
    else if isOpenCh c then (runScan (c :: stack) rest inStr false).addLen 1
    else if isCloseCh c then
      match stack with
      | [] => .dead
      | last :: stackRest =>
        if (last = '{' && c = '}') || (last = '[' && c = ']') then
          match stackRest with
          | [] => .success 1
          | _ :: _ => (runScan stackRest rest inStr false).addLen 1
        else .dead
    else (runScan stack rest inStr false).addLen 1

/-- Compose a walk outcome over a first chunk with the walk over the rest:
success and death are final; an intermediate state continues into the
second chunk, whose consumed count is offset by the first chunk's
length. -/
def ScanRes.seq (r : ScanRes) (len : Nat) (f : List Char → Bool → Bool → ScanRes) : ScanRes :=
  match r with
  | .success n => .success n
  | .dead => .dead
  | .more st is es => (f st is es).addLen len

/-- The successful consumed count of a walk outcome. -/
def resToOpt : ScanRes → Option Nat
  | .success n => some n
  | _ => none

/-- Canonical decimal digit list of a natural number (proof-side
specification of `natDigitsAux`). -/
def natDigitsSpec (n : Nat) : List Char :=
  if n < 10 then [digitChar n]
  else natDigitsSpec (n / 10) ++ [digitChar (n % 10)]
termination_by n
decreasing_by exact Nat.div_lt_self (by omega) (by omega)

-- ===== THEOREMS =====

theorem exceptBind_ok {α β : Type} (a : α) (f : α → Except String β) :
    (Except.ok a >>= f) = f a := rfl

theorem exceptBind_err {α β : Type} (e : String) (f : α → Except String β) :
    ((Except.error e : Except String α) >>= f) = .error e := rfl

theorem chBegins_append (s a b : List Char) (h : chBegins s (a ++ b) = true) :
    chBegins s a = true := by
  induction a generalizing s with
  | nil => cases s <;> rfl
  | cons d ds ih =>
    cases s with
    | nil => simp [chBegins] at h
    | cons c cs =>
      simp only [List.cons_append, chBegins, Bool.and_eq_true] at h ⊢
      exact ⟨h.1, ih cs h.2⟩

theorem chHasSub_append (s a b : List Char) (h : chHasSub s (a ++ b) = true) :
    chHasSub s a = true := by
  induction s with
  | nil =>
    simp only [chHasSub, List.isEmpty_iff] at h ⊢
    rcases List.append_eq_nil.mp h with ⟨ha, _⟩
    exact ha
  | cons c cs ih =>
    simp only [chHasSub, Bool.or_eq_true] at h ⊢
    rcases h with h | h
    · exact Or.inl (chBegins_append _ _ _ h)
    · exact Or.inr (ih h)

theorem resourceTypeOfLower_eq_spec_chain (t : String) :
    resourceTypeOfLower t =
      (if strHasSub t "video" then "Video"
       else if strHasSub t "course" then "Course"
       else if strHasSub t "doc" then "Documentation"
       else "Article") := by
  unfold resourceTypeOfLower
  by_cases hv : strHasSub t "video" = true
  · simp [hv]
  · simp only [hv, if_neg, Bool.false_eq_true, if_false]
    by_cases hc : strHasSub t "course" = true
    · simp [hc]
    · simp only [hc, Bool.false_eq_true, if_false]
      by_cases hd : strHasSub t "doc" = true
      · simp [hd]
      · have hdoc : strHasSub t "documentation" = false := by
          rcases h : strHasSub t "documentation" with _ | _
          · rfl
          · exact absurd (chHasSub_append t.toList "doc".toList "umentation".toList h) (by simp [strHasSub] at hd ⊢; exact hd)
        have hdocs : strHasSub t "docs" = false := by
          rcases h : strHasSub t "docs" with _ | _
          · rfl
          · exact absurd (chHasSub_append t.toList "doc".toList "s".toList h) (by simp [strHasSub] at hd ⊢; exact hd)
        simp only [hd, hdoc, hdocs, Bool.or_self, Bool.false_eq_true, if_false]
        rcases strHasSub t "article" || strHasSub t "blog" || strHasSub t "post" <;> rfl

/-- C8: resource type canonicalization is case-insensitive, keyword based,
checked in priority order video, course, doc, article/blog/post, defaulting
to Article, and the specific examples "VIDEO", "video tutorial",
"Video Course", "official docs", "API Documentation" map as stated. -/
theorem c8_resource_type_canonicalization :
    (∀ rawType : String, normalizeResourceType rawType = normalizeResourceTypeSpec rawType)
    ∧ normalizeResourceType "VIDEO" = "Video"
    ∧ normalizeResourceType "video tutorial" = "Video"
    ∧ normalizeResourceType "Video Course" = "Video"
    ∧ normalizeResourceType "official docs" = "Documentation"
    ∧ normalizeResourceType "API Documentation" = "Documentation"
    ∧ normalizeResourceType "podcast" = "Article"
    ∧ normalizeResourceType "" = "Article" := by
  refine ⟨?_, by decide, by decide, by decide, by decide, by decide, by decide, by decide⟩
  intro rawType
  unfold normalizeResourceType normalizeResourceTypeSpec
  by_cases h0 : rawType = ""
  · subst h0; decide
  · simp only [h0, if_false]
    rw [resourceTypeOfLower_eq_spec_chain]
    rcases strHasSub (strLower rawType) "video" <;>
      rcases strHasSub (strLower rawType) "course" <;>
        rcases strHasSub (strLower rawType) "doc" <;>
          simp

theorem extractFrom_characterization (l : List Char) :
    (∀ s, extractFrom l = some s →
      ∃ i c rest n, l.drop i = c :: rest ∧ isOpenCh c = true ∧
        scanBalance [c] rest false false = some n ∧ s = c :: rest.take n ∧
        noEarlierSpan l i)
    ∧ (extractFrom l = none → allSpansFail l) := by
  induction l with
  | nil =>
    constructor
    · intro s h; simp [extractFrom] at h
    · intro _ j c rest hj; simp at hj
  | cons c0 rest0 ih =>
    constructor
    · intro s h
      unfold extractFrom at h
      by_cases hop : isOpenCh c0 = true
      · rw [if_pos hop] at h
        rcases hs : scanBalance [c0] rest0 false false with _ | n <;> rw [hs] at h
        · -- first opener fails, result comes from the tail
          rcases (ih.1 s h) with ⟨i, c, rest, n, hdrop, hoc, hscan, hs2, hmin⟩
          refine ⟨i + 1, c, rest, n, by simpa using hdrop, hoc, hscan, hs2, ?_⟩
          intro j c' rest' hj hdj hoc'
          cases j with
          | zero =>
            simp only [List.drop_zero] at hdj
            cases hdj
            exact hs
          | succ j' =>
            simp only [List.drop_succ_cons] at hdj
            exact hmin j' c' rest' (Nat.lt_of_succ_lt_succ hj) hdj hoc'
        · cases h
          exact ⟨0, c0, rest0, n, rfl, hop, hs, rfl, fun j _ _ hj _ _ => absurd hj (Nat.not_lt_zero j)⟩
      · rw [if_neg hop] at h
        rcases (ih.1 s h) with ⟨i, c, rest, n, hdrop, hoc, hscan, hs2, hmin⟩
        refine ⟨i + 1, c, rest, n, by simpa using hdrop, hoc, hscan, hs2, ?_⟩
        intro j c' rest' hj hdj hoc'
        cases j with
        | zero =>
          simp only [List.drop_zero] at hdj
          cases hdj
          exact absurd hoc' hop
        | succ j' =>
          simp only [List.drop_succ_cons] at hdj
          exact hmin j' c' rest' (Nat.lt_of_succ_lt_succ hj) hdj hoc'
    · intro h j c rest hdj hoc
      unfold extractFrom at h
      by_cases hop : isOpenCh c0 = true
      · rw [if_pos hop] at h
        rcases hs : scanBalance [c0] rest0 false false with _ | n <;> rw [hs] at h
        · cases j with
          | zero => simp only [List.drop_zero] at hdj; cases hdj; exact hs
          | succ j' =>
            simp only [List.drop_succ_cons] at hdj
            exact ih.2 h j' c rest hdj hoc
        · cases h
      · rw [if_neg hop] at h
        cases j with
        | zero => simp only [List.drop_zero] at hdj; cases hdj; exact absurd hoc hop
        | succ j' =>
          simp only [List.drop_succ_cons] at hdj
          exact ih.2 h j' c rest hdj hoc

/-- C4 counterexample: for the fence-free text consisting of an open brace,
a space, and the balanced span bracket-1-bracket, the scan produces the
candidate starting at the bracket (index 2), not at the position of the
first opening delimiter character of the text (index 0). -/
theorem c4_counterexample_candidate_not_at_first_opener :
    extractJsonSubstring "\x7b [1]" = some "[1]"
    ∧ "\x7b [1]".toList.findIdx (fun ch => isOpenCh ch) = 0
    ∧ "\x7b [1]".toList.take 3 ≠ "[1]".toList := by
  exact ⟨by decide, by decide, by decide⟩

/-- C4 (amended): if the balanced-span scan produces a candidate substring,
that substring begins at the first opening brace or bracket position from
which the forward walk (tracking a delimiter stack, quoted strings, and
escape markers) reaches an empty stack — every earlier opening position
starts a failing walk — and it ends at the point where that walk's stack
first empties; if the walks from all opening positions fail, the scan
returns empty. -/
theorem c4_extractor_scan_first_successful_opener (l : List Char) :
    (∀ s, extractFrom l = some s →
      ∃ i c rest n, l.drop i = c :: rest ∧ isOpenCh c = true ∧
        scanBalance [c] rest false false = some n ∧ s = c :: rest.take n ∧
        noEarlierSpan l i)
    ∧ (extractFrom l = none → allSpansFail l) :=
  extractFrom_characterization l

/-- Witness for C4: instantiated on the text x-bracket-1-bracket. -/
theorem c4_extractor_scan_witness :
    ∃ i c rest n, ("x[1]".toList).drop i = c :: rest ∧ isOpenCh c = true ∧
      scanBalance [c] rest false false = some n ∧
      ("[1]".toList) = c :: rest.take n ∧ noEarlierSpan "x[1]".toList i :=
  (c4_extractor_scan_first_successful_opener "x[1]".toList).1 "[1]".toList (by decide)

/-- C5: for every input string the extractor is a total function that
returns either a value parsed from its candidate substring (directly, or
after re-extracting a balanced span from the candidate) together with no
diagnostic, or the empty-list result together with exactly one diagnostic
message; a parse failure of the underlying parser model (`jparse` returning
`none`) is absorbed, never surfaced. -/
theorem c5_extractor_total_parsed_or_empty (t : String) :
    (∃ c v, candidateOf t = some c ∧ cleanJsonFull t = (v, []) ∧
      (jparse (String.mk c) = some v ∨
        (jparse (String.mk c) = none ∧ ∃ inner, extractFrom c = some inner ∧
          jparse (String.mk inner) = some v)))
    ∨ (∃ d, cleanJsonFull t = (JValue.arr [], [d])) := by
  rcases hc : candidateOf t with _ | c
  · right
    exact ⟨_, by unfold cleanJsonFull; rw [hc]⟩
  · by_cases he : c.isEmpty
    · right
      refine ⟨"Failed to parse JSON: no JSON-like substring found in response", ?_⟩
      unfold cleanJsonFull; rw [hc]; simp [he]
    · rcases hp : jparse (String.mk c) with _ | v
      · rcases hi : extractFrom c with _ | inner
        · right
          refine ⟨"Failed to parse JSON: " ++ String.mk (c.take 300), ?_⟩
          unfold cleanJsonFull; rw [hc]; simp [he, hp, hi]
        · rcases hp2 : jparse (String.mk inner) with _ | v2
          · right
            refine ⟨"Failed to parse JSON: " ++ String.mk (c.take 300), ?_⟩
            unfold cleanJsonFull; rw [hc]; simp [he, hp, hi, hp2]
          · left
            refine ⟨c, v2, rfl, ?_, Or.inr ⟨hp, inner, hi, hp2⟩⟩
            unfold cleanJsonFull; rw [hc]; simp [he, hp, hi, hp2]
      · left
        refine ⟨c, v, rfl, ?_, Or.inl hp⟩
        unfold cleanJsonFull; rw [hc]; simp [he, hp]

/-- C7: shape resolution follows the claimed order - a sequence is used
directly; a keyed container is searched for the conventional path key
(learning_path) or roadmap key holding a sequence; failing that, a
container with the module-name field is wrapped as a singleton; failing
that, the first sequence-valued entry among the container's values is
used; otherwise the result is empty. -/
theorem c7_shape_resolution_order (raw : JValue) :
    resolveModules raw = resolveModulesSpec raw := by
  cases raw with
  | null => rfl
  | bool b => cases b <;> rfl
  | num n => unfold resolveModules resolveModulesSpec; split <;> rfl
  | str s => unfold resolveModules resolveModulesSpec; split <;> rfl
  | arr l => cases l <;> rfl
  | obj kvs => cases kvs <;> rfl

theorem normModule_id (idx : Nat) (kvs : List (String × JValue)) (nm : JValue)
    (h : normModule idx kvs = .ok nm) :
    moduleIdOf nm = some (JValue.num (idx + 1)) := by
  simp only [normModule] at h
  rcases hr : normResources (jOr (objGetD kvs "resources" JValue.null) (.arr [])) with e | resources <;>
    rw [hr] at h
  · exact absurd h (by simp)
  · simp only [Except.ok.injEq] at h
    subst h
    rfl

theorem normalizeModulesLoop_ids (l : List JValue) (idx : Nat) (out : List JValue)
    (h : normalizeModulesLoop idx l = .ok out) :
    moduleIds out =
      ((List.enumFrom idx l).filter (fun p => isObjB p.2)).map
        (fun p => some (JValue.num (p.1 + 1))) := by
  induction l generalizing idx out with
  | nil =>
    simp only [normalizeModulesLoop, Except.ok.injEq] at h
    subst h
    rfl
  | cons m rest ih =>
    cases m with
    | obj kvs =>
      unfold normalizeModulesLoop at h
      rcases hm : normModule idx kvs with e | nm <;> rw [hm] at h
      · exact absurd h (by simp)
      · rcases ht : normalizeModulesLoop (idx + 1) rest with e | tail <;> rw [ht] at h
        · exact absurd h (by simp)
        · simp only [Except.ok.injEq] at h
          subst h
          simp only [List.enumFrom_cons, List.filter_cons, isObjB, if_pos, List.map_cons,
            moduleIds, List.map, moduleIdOf]
          refine congrArg₂ _ ?_ ?_
          · exact normModule_id idx kvs nm hm
          · exact ih (idx + 1) tail ht
    | null =>
      unfold normalizeModulesLoop at h
      simpa [List.enumFrom_cons, isObjB] using ih (idx + 1) out h
    | bool b =>
      unfold normalizeModulesLoop at h
      simpa [List.enumFrom_cons, isObjB] using ih (idx + 1) out h
    | num n =>
      unfold normalizeModulesLoop at h
      simpa [List.enumFrom_cons, isObjB] using ih (idx + 1) out h
    | str s =>
      unfold normalizeModulesLoop at h
      simpa [List.enumFrom_cons, isObjB] using ih (idx + 1) out h
    | arr l2 =>
      unfold normalizeModulesLoop at h
      simpa [List.enumFrom_cons, isObjB] using ih (idx + 1) out h

/-- C1 counterexample: on the list whose entries are the number 5 (not
recognized) and an empty dict (recognized), the single recognized module
receives identifier 2, not the contiguous sequence starting at 1. -/
theorem c1_counterexample_ids_not_contiguous :
    Except.map moduleIds (normalizeRoadmap (.arr [.num 5, .obj []])) =
      .ok [some (JValue.num 2)]
    ∧ ([some (JValue.num 2)] : List (Option JValue)) ≠ [some (JValue.num 1)] := by
  constructor
  · rfl
  · simp

/-- C1 (amended): the normalizer assigns each recognized (dict) entry the
identifier position+1, where position is its index in the resolved module
sequence counting the skipped unrecognized entries too; identifiers are
exactly the contiguous sequence 1..N precisely when every resolved entry is
recognized, N being the length of the resolved sequence. -/
theorem c1_identifiers_enumeration_positions :
    (∀ raw out, normalizeRoadmap raw = .ok out →
      moduleIds out = recognizedIds (resolveModules raw))
    ∧ (∀ raw out, normalizeRoadmap raw = .ok out →
        (∀ m ∈ resolveModules raw, isObjB m = true) →
        moduleIds out =
          (List.range (resolveModules raw).length).map
            (fun i : Nat => some (JValue.num (i + 1)))) := by
  constructor
  · intro raw out h
    exact normalizeModulesLoop_ids _ 0 out h
  · intro raw out h hall
    have h1 := normalizeModulesLoop_ids _ 0 out h
    rw [h1]
    have hf : (List.enumFrom 0 (resolveModules raw)).filter (fun p => isObjB p.2) =
        List.enumFrom 0 (resolveModules raw) := by
      apply List.filter_eq_self.mpr
      intro p hp
      refine hall p.2 ?_
      have hm := List.mem_map_of_mem Prod.snd hp
      rwa [List.enumFrom_map_snd] at hm
    rw [hf]
    rw [show (fun p : Nat × JValue => some (JValue.num (p.1 + 1))) =
      ((fun i : Nat => some (JValue.num (i + 1))) ∘ Prod.fst) from rfl]
    rw [← List.map_map, List.enumFrom_map_fst, List.range_eq_range']

/-- Witness for C1: a two-dict input receives identifiers 1 and 2. -/
theorem c1_identifiers_witness :
    moduleIds ((normalizeRoadmap (.arr [.obj [], .obj []])).toOption.getD []) =
      recognizedIds (resolveModules (.arr [.obj [], .obj []])) := by
  have := c1_identifiers_enumeration_positions.1 (.arr [.obj [], .obj []])
    ((normalizeRoadmap (.arr [.obj [], .obj []])).toOption.getD []) (by rfl)
  exact this

theorem pyLookup_map_update (kvs : List (String × JValue)) (k : String) (v : JValue)
    (h : (pyLookup kvs k).isSome) :
    pyLookup (replaceKey k v kvs) k = some v := by
  induction kvs with
  | nil => simp [pyLookup] at h
  | cons kv rest ih =>
    obtain ⟨k2, v2⟩ := kv
    by_cases hk : k2 = k
    · subst hk
      simp [replaceKey, pyLookup]
    · simp only [pyLookup, hk, if_false] at h
      simp [replaceKey, pyLookup, hk, ih h]

theorem pyLookup_append_new (kvs : List (String × JValue)) (k : String) (v : JValue)
    (h : pyLookup kvs k = none) :
    pyLookup (kvs ++ [(k, v)]) k = some v := by
  induction kvs with
  | nil => simp [pyLookup]
  | cons kv rest ih =>
    obtain ⟨k2, v2⟩ := kv
    by_cases hk : k2 = k
    · simp [pyLookup, hk] at h
    · simp only [pyLookup, hk, if_false] at h
      simp [pyLookup, hk, ih h]

theorem pyLookup_objUpdate (kvs : List (String × JValue)) (k : String) (v : JValue) :
    pyLookup (objUpdate kvs k v) k = some v := by
  unfold objUpdate
  rcases h : pyLookup kvs k with _ | v'
  · rw [if_neg (by simp [h])]
    exact pyLookup_append_new kvs k v h
  · rw [if_pos (by simp [h])]
    exact pyLookup_map_update kvs k v (by simp [h])

theorem filter_map_update (kvs : List (String × JValue)) (k : String) (v : JValue) :
    (replaceKey k v kvs).filter (fun kv => !decide (kv.1 = k)) =
      kvs.filter (fun kv => !decide (kv.1 = k)) := by
  induction kvs with
  | nil => rfl
  | cons kv rest ih =>
    obtain ⟨k2, v2⟩ := kv
    by_cases hk : k2 = k
    · subst hk
      simp [replaceKey, List.filter_cons, ih]
    · simp [replaceKey, List.filter_cons, hk, ih]

theorem filter_objUpdate (kvs : List (String × JValue)) (k : String) (v : JValue) :
    (objUpdate kvs k v).filter (fun kv => !decide (kv.1 = k)) =
      kvs.filter (fun kv => !decide (kv.1 = k)) := by
  unfold objUpdate
  by_cases h : (pyLookup kvs k).isSome
  · rw [if_pos h]
    exact filter_map_update kvs k v
  · rw [if_neg h]
    simp [List.filter_append]

theorem resTypeIsVideo_obj_eq (kvs : List (String × JValue)) :
    resTypeIsVideo (.obj kvs) =
      (match (pyLookup kvs "type").getD (.str "") with
       | .str s => .ok (decide (strLower s = "video"))
       | _ => .error "AttributeError: lower") := rfl

theorem resTypeIsVideo_ok (r : JValue) (h : wfResource r = true) :
    ∃ b, resTypeIsVideo r = .ok b := by
  unfold wfResource at h
  cases r with
  | obj kvs =>
    rw [resTypeIsVideo_obj_eq]
    rcases ht : pyLookup kvs "type" with _ | tv
    · exact ⟨_, rfl⟩
    · simp only [ht] at h
      cases tv with
      | str s => exact ⟨_, rfl⟩
      | null => simp at h
      | bool b => simp at h
      | num n => simp at h
      | arr l => simp at h
      | obj kvs2 => simp at h
  | null => simp at h
  | bool b => simp at h
  | num n => simp at h
  | str s => simp at h
  | arr l => simp at h

theorem filterExcept_ok (p : JValue → Except String Bool) (rs : List JValue)
    (h : ∀ r ∈ rs, ∃ b, p r = .ok b) :
    ∃ out, filterExcept p rs = .ok out := by
  induction rs with
  | nil => exact ⟨[], rfl⟩
  | cons r rest ih =>
    obtain ⟨b, hb⟩ := h r (by simp)
    obtain ⟨out, hout⟩ := ih (fun r' hr' => h r' (by simp [hr']))
    refine ⟨if b then r :: out else out, ?_⟩
    simp only [filterExcept, hb, hout]
    rfl

theorem enrichOne_obj_eq (f : ProviderFun) (role style : String)
    (kvs : List (String × JValue)) :
    enrichOne f role style (.obj kvs) =
      ((do
        let resElems ← jIterate (objGetD kvs "resources" (.arr []))
        let videoResources ← filterExcept resTypeIsVideo resElems
        let otherResources ←
          filterExcept (fun r => (resTypeIsVideo r).map (fun b => !b)) resElems
        let realVideos := fetchRealYoutubeVideos (some f)
          (objGetD kvs "module_name" (.str "")) (objGetD kvs "skills_covered" (.arr []))
          role (videoQuota style videoResources)
        let newResources : JValue :=
          if !realVideos.isEmpty then .arr (realVideos ++ otherResources)
          else objGetD kvs "resources" (.arr [])
        pure (.obj (objUpdate kvs "resources" newResources))) : Except String JValue) := rfl

theorem enrichOne_wf (f : ProviderFun) (role style : String) (m : JValue)
    (h : wfModule m = true) :
    ∃ mo, enrichOne f role style m = .ok mo ∧ delResources mo = delResources m := by
  unfold wfModule at h
  cases m with
  | obj kvs =>
    have hres : ∃ rs, objGetD kvs "resources" (.arr []) = .arr rs ∧
        ∀ r ∈ rs, wfResource r = true := by
      unfold objGetD
      rcases ht : pyLookup kvs "resources" with _ | rv
      · exact ⟨[], rfl, by simp⟩
      · simp only [ht] at h
        cases rv with
        | arr rs => exact ⟨rs, rfl, by simpa [List.all_eq_true] using h⟩
        | null => simp at h
        | bool b => simp at h
        | num n => simp at h
        | str s => simp at h
        | obj kvs2 => simp at h
    obtain ⟨rs, hrs, hall⟩ := hres
    obtain ⟨vres, hvres⟩ := filterExcept_ok resTypeIsVideo rs
      (fun r hr => resTypeIsVideo_ok r (hall r hr))
    obtain ⟨ores, hores⟩ := filterExcept_ok
      (fun r => (resTypeIsVideo r).map (fun b => !b)) rs
      (fun r hr => by
        obtain ⟨b, hb⟩ := resTypeIsVideo_ok r (hall r hr)
        exact ⟨!b, by simp [hb, Except.map]⟩)
    refine ⟨.obj (objUpdate kvs "resources"
      (if !(fetchRealYoutubeVideos (some f) (objGetD kvs "module_name" (.str ""))
            (objGetD kvs "skills_covered" (.arr [])) role (videoQuota style vres)).isEmpty
       then .arr ((fetchRealYoutubeVideos (some f) (objGetD kvs "module_name" (.str ""))
            (objGetD kvs "skills_covered" (.arr [])) role (videoQuota style vres)) ++ ores)
       else .arr rs)), ?_, ?_⟩
    · rw [enrichOne_obj_eq, hrs]
      simp only [jIterate, exceptBind_ok, hvres, hores]
      rfl
    · simp only [delResources]
      rw [filter_objUpdate]
  | null => simp at h
  | bool b => simp at h
  | num n => simp at h
  | str s => simp at h
  | arr l => simp at h

theorem moduleFetchResult_obj_eq (f : ProviderFun) (role style : String)
    (kvs : List (String × JValue)) :
    moduleFetchResult f role style (.obj kvs) =
      ((do
        let resElems ← jIterate (objGetD kvs "resources" (.arr []))
        let videoResources ← filterExcept resTypeIsVideo resElems
        pure (fetchRealYoutubeVideos (some f) (objGetD kvs "module_name" (.str ""))
          (objGetD kvs "skills_covered" (.arr [])) role
          (videoQuota style videoResources))) : Except String (List JValue)) := rfl

theorem enrichOne_preserves (f : ProviderFun) (role style : String) (m out : JValue)
    (h : enrichOne f role style m = .ok out)
    (hf : moduleFetchResult f role style m = .ok []) :
    resourcesOf out = resourcesOf m := by
  cases m with
  | obj kvs =>
    rw [enrichOne_obj_eq] at h
    rw [moduleFetchResult_obj_eq] at hf
    rcases hi : jIterate (objGetD kvs "resources" (.arr [])) with e | elems <;>
      rw [hi] at h hf
    · exact absurd h (by simp [exceptBind_err])
    · rw [exceptBind_ok] at h hf
      rcases hv : filterExcept resTypeIsVideo elems with e | vres <;> rw [hv] at h hf
      · exact absurd h (by simp [exceptBind_err])
      · rw [exceptBind_ok] at h hf
        rcases ho : filterExcept (fun r => (resTypeIsVideo r).map (fun b => !b)) elems
          with e | ores <;> rw [ho] at h
        · exact absurd h (by simp [exceptBind_err])
        · rw [exceptBind_ok] at h
          have hfetch : fetchRealYoutubeVideos (some f)
              (objGetD kvs "module_name" (.str "")) (objGetD kvs "skills_covered" (.arr []))
              role (videoQuota style vres) = [] := by
            simpa [pure, Except.pure] using hf
          rw [hfetch] at h
          simp only [List.isEmpty_nil, Bool.not_true, Bool.false_eq_true, if_false] at h
          have hout : out = .obj (objUpdate kvs "resources" (objGetD kvs "resources" (.arr []))) := by
            have := h
            simp only [pure, Except.pure, Except.ok.injEq] at this
            exact this.symm
          subst hout
          simp only [resourcesOf, objGetD, pyLookup_objUpdate, Option.getD]
  | null => exact absurd h (by simp [enrichOne])
  | bool b => exact absurd h (by simp [enrichOne])
  | num n => exact absurd h (by simp [enrichOne])
  | str s => exact absurd h (by simp [enrichOne])
  | arr l => exact absurd h (by simp [enrichOne])

theorem enrichResources_some_eq (f : ProviderFun) (modules : JValue)
    (role style : String) :
    enrichResources (some f) modules role style =
      ((do
        let elems ← jIterate modules
        let out ← mapExcept (enrichOne f role style) elems
        pure (.arr out)) : Except String JValue) := rfl

theorem fetchReal_of_err (g : ProviderFun)
    (hg : ∀ a b c d, ∃ e, g a b c d = .error e) :
    ∀ a b c d, fetchRealYoutubeVideos (some g) a b c d = [] := by
  intro a b c d
  obtain ⟨e, he⟩ := hg a b c d
  simp [fetchRealYoutubeVideos, he]

theorem fetchReal_of_empty (h : ProviderFun)
    (hh : ∀ a b c d, h a b c d = .ok []) :
    ∀ a b c d, fetchRealYoutubeVideos (some h) a b c d = [] := by
  intro a b c d
  simp [fetchRealYoutubeVideos, hh]

theorem enrichOne_fetch_ext (g h : ProviderFun) (role style : String)
    (hg : ∀ a b c d, fetchRealYoutubeVideos (some g) a b c d = [])
    (hh : ∀ a b c d, fetchRealYoutubeVideos (some h) a b c d = []) (m : JValue) :
    enrichOne g role style m = enrichOne h role style m := by
  cases m with
  | obj kvs => rw [enrichOne_obj_eq, enrichOne_obj_eq]; simp only [hg, hh]
  | null => rfl
  | bool b => rfl
  | num n => rfl
  | str s => rfl
  | arr l => rfl

theorem mapExcept_wf (f : ProviderFun) (role style : String) (mods : List JValue)
    (h : ∀ m ∈ mods, wfModule m = true) :
    ∃ out, mapExcept (enrichOne f role style) mods = .ok out ∧
      List.Forall₂ (fun a b => delResources a = delResources b) out mods := by
  induction mods with
  | nil => exact ⟨[], rfl, List.Forall₂.nil⟩
  | cons m rest ih =>
    obtain ⟨mo, hmo, hdel⟩ := enrichOne_wf f role style m (h m (by simp))
    obtain ⟨out, hout, hfa⟩ := ih (fun m' hm' => h m' (by simp [hm']))
    refine ⟨mo :: out, ?_, List.Forall₂.cons hdel hfa⟩
    simp only [mapExcept, hmo, hout, exceptBind_ok]
    rfl

/-- C3: enrichment degrades gracefully - with no provider configured the
input passes through unchanged; a provider that raises on every call
produces exactly the behavior of a provider that finds nothing (the
exception is caught inside the fetch helper and never propagates); and for
any module whose provider query yields no candidates, the module's
resource list after enrichment equals its resource list before. -/
theorem c3_enrichment_graceful_degradation :
    (∀ (modules : JValue) (role style : String),
      enrichResources none modules role style = .ok modules)
    ∧ (∀ (g h : ProviderFun) (modules : JValue) (role style : String),
        (∀ a b c d, ∃ e, g a b c d = Except.error e) →
        (∀ a b c d, h a b c d = .ok []) →
        enrichResources (some g) modules role style =
          enrichResources (some h) modules role style)
    ∧ (∀ (f : ProviderFun) (role style : String) (m out : JValue),
        enrichOne f role style m = .ok out →
        moduleFetchResult f role style m = .ok [] →
        resourcesOf out = resourcesOf m) := by
  refine ⟨fun _ _ _ => rfl, ?_, enrichOne_preserves⟩
  intro g h modules role style hg hh
  have hext : enrichOne g role style = enrichOne h role style :=
    funext (enrichOne_fetch_ext g h role style
      (fetchReal_of_err g hg) (fetchReal_of_empty h hh))
  rw [enrichResources_some_eq, enrichResources_some_eq, hext]

/-- Witness for C3: a provider raising on every call leaves a module's
resource list unchanged. -/
theorem c3_enrichment_witness :
    resourcesOf (.obj [("module_name", JValue.str "M"), ("resources", .arr [])]) =
      resourcesOf (.obj [("module_name", JValue.str "M")]) :=
  c3_enrichment_graceful_degradation.2.2
    (fun _ _ _ _ => .error "provider down") "React Developer" "Text"
    (.obj [("module_name", JValue.str "M")])
    (.obj [("module_name", JValue.str "M"), ("resources", .arr [])])
    (by rfl) (by rfl)

/-- C10 (with well-formed module records, i.e. dicts whose resources value,
when present, is a list of dicts with string-or-absent type): enrichment
returns the same number of modules in the same order and leaves every field
other than resources unchanged; with no provider configured the input
passes through identically. -/
theorem c10_enrichment_frame :
    (∀ (modules : JValue) (role style : String),
      enrichResources none modules role style = .ok modules)
    ∧ (∀ (f : ProviderFun) (modules : List JValue) (role style : String),
        (∀ m ∈ modules, wfModule m = true) →
        ∃ out, enrichResources (some f) (.arr modules) role style = .ok (.arr out) ∧
          out.length = modules.length ∧
          List.Forall₂ (fun a b => delResources a = delResources b) out modules) := by
  refine ⟨fun _ _ _ => rfl, ?_⟩
  intro f modules role style h
  obtain ⟨out, hout, hfa⟩ := mapExcept_wf f role style modules h
  refine ⟨out, ?_, hfa.length_eq, hfa⟩
  rw [enrichResources_some_eq]
  simp only [jIterate, exceptBind_ok, hout]
  rfl

/-- Witness for C10: a singleton well-formed module list with a provider
that returns one candidate. -/
theorem c10_enrichment_witness :
    ∃ out, enrichResources (some (fun _ _ _ _ => .ok [JValue.obj [("type", JValue.str "Video")]]))
        (.arr [JValue.obj [("module_name", JValue.str "M")]]) "r" "Video" = .ok (.arr out) ∧
      out.length = [JValue.obj [("module_name", JValue.str "M")]].length ∧
      List.Forall₂ (fun a b => delResources a = delResources b) out
        [JValue.obj [("module_name", JValue.str "M")]] :=
  c10_enrichment_frame.2 (fun _ _ _ _ => .ok [JValue.obj [("type", JValue.str "Video")]])
    [JValue.obj [("module_name", JValue.str "M")]] "r" "Video"
    (by intro m hm; simp only [List.mem_singleton] at hm; subst hm; rfl)

theorem mem_stableInsert (le : Candidate → Candidate → Bool) (a x : Candidate)
    (l : List Candidate) : x ∈ stableInsert le a l ↔ x = a ∨ x ∈ l := by
  induction l with
  | nil => simp [stableInsert]
  | cons b rest ih =>
    by_cases h : le a b
    · simp [stableInsert, h]
    · simp [stableInsert, h, ih]
      tauto

theorem mem_stableSort (le : Candidate → Candidate → Bool) (x : Candidate)
    (l : List Candidate) : x ∈ stableSort le l ↔ x ∈ l := by
  induction l with
  | nil => simp [stableSort]
  | cons a rest ih =>
    simp [stableSort, mem_stableInsert, ih]

theorem rankKeyLe_total (a b : Candidate) : rankKeyLe a b || rankKeyLe b a := by
  simp only [rankKeyLe, Bool.or_eq_true, decide_eq_true_eq]
  rcases lt_trichotomy a.likesRatio b.likesRatio with h | h | h
  · exact Or.inr (Or.inl h)
  · rcases Nat.le_total b.views a.views with hv | hv
    · exact Or.inl (Or.inr ⟨h.symm, hv⟩)
    · exact Or.inr (Or.inr ⟨h, hv⟩)
  · exact Or.inl (Or.inl h)

theorem rankKeyLe_trans (a b c : Candidate) (hab : rankKeyLe a b = true)
    (hbc : rankKeyLe b c = true) : rankKeyLe a c = true := by
  simp only [rankKeyLe, decide_eq_true_eq] at hab hbc ⊢
  rcases hab with h1 | ⟨h1, hv1⟩ <;> rcases hbc with h2 | ⟨h2, hv2⟩
  · exact Or.inl (h2.trans h1)
  · exact Or.inl (h2 ▸ h1)
  · exact Or.inl (h1 ▸ h2)
  · exact Or.inr ⟨h2.trans h1, Nat.le_trans hv2 hv1⟩

theorem pairwise_stableInsert (le : Candidate → Candidate → Bool)
    (htot : ∀ a b, le a b || le b a)
    (htrans : ∀ a b c, le a b = true → le b c = true → le a c = true)
    (a : Candidate) (l : List Candidate)
    (h : l.Pairwise (fun x y => le x y = true)) :
    (stableInsert le a l).Pairwise (fun x y => le x y = true) := by
  induction l with
  | nil => simp [stableInsert]
  | cons b rest ih =>
    rw [List.pairwise_cons] at h
    obtain ⟨hb, hrest⟩ := h
    by_cases hab : le a b
    · simp only [stableInsert, hab, if_true, List.pairwise_cons]
      refine ⟨?_, hb, hrest⟩
      intro x hx
      rcases List.mem_cons.mp hx with hx | hx
      · subst hx; exact hab
      · exact htrans a b x hab (hb x hx)
    · simp only [stableInsert, hab, Bool.false_eq_true, if_false, List.pairwise_cons]
      refine ⟨?_, ih hrest⟩
      intro x hx
      rcases (mem_stableInsert le a x rest).mp hx with hx | hx
      · rw [hx]
        have := htot a b
        simp only [hab, Bool.false_or] at this
        exact this
      · exact hb x hx

theorem pairwise_stableSort (le : Candidate → Candidate → Bool)
    (htot : ∀ a b, le a b || le b a)
    (htrans : ∀ a b c, le a b = true → le b c = true → le a c = true)
    (l : List Candidate) :
    (stableSort le l).Pairwise (fun x y => le x y = true) := by
  induction l with
  | nil => simp [stableSort]
  | cons a rest ih => exact pairwise_stableInsert le htot htrans a _ ih

/-- C6: in the metrics-aware provider's ranking every candidate below the
fixed view-count floor is excluded from the result, the result is ordered
by quality ratio descending with view count descending as tiebreaker, it is
the truncation of the sorted surviving candidates to the requested count,
and on the concrete view counts 500, 2000, 5000 the candidate with 500
views is excluded (despite its top ratio) while the other two appear in
ratio order. -/
theorem c6_ranking_floor_and_order :
    (∀ (cs : List Candidate) (n : Nat),
      (∀ c ∈ searchVideosRank cs n, viewFloor ≤ c.views)
      ∧ (searchVideosRank cs n).Pairwise
          (fun a b => b.likesRatio < a.likesRatio ∨
            (b.likesRatio = a.likesRatio ∧ b.views ≤ a.views))
      ∧ searchVideosRank cs n =
          (stableSort rankKeyLe (cs.filter (fun c => viewFloor ≤ c.views))).take n
      ∧ (searchVideosRank cs n).length ≤ n)
    ∧ searchVideosRank [cand500, cand2000, cand5000] 5 = [cand2000, cand5000] := by
  constructor
  · intro cs n
    refine ⟨?_, ?_, rfl, ?_⟩
    · intro c hc
      have h1 : c ∈ stableSort rankKeyLe (cs.filter (fun c => viewFloor ≤ c.views)) :=
        List.mem_of_mem_take hc
      have h2 := (mem_stableSort _ c _).mp h1
      have h3 := List.mem_filter.mp h2
      simpa using h3.2
    · have hp := pairwise_stableSort rankKeyLe rankKeyLe_total rankKeyLe_trans
        (cs.filter (fun c => viewFloor ≤ c.views))
      have hs : List.Sublist (searchVideosRank cs n)
          (stableSort rankKeyLe (cs.filter (fun c => viewFloor ≤ c.views))) :=
        List.take_sublist n _
      exact (hp.sublist hs).imp (fun h => by simpa [rankKeyLe] using h)
    · exact (List.length_take_le n _)
  · decide

/-- C2 counterexample: a run in which all four generative calls succeed
(the curator call returns a dict-shaped payload) and a video provider is
configured still raises, out of the enrichment loop - so the generative
call raising is not the only failing condition. -/
theorem c2_counterexample_nongen_failure :
    (generateLearningPath promptsFixed (some svcNoFind) genDictCurator
        (fun _ => "") profileFixed none).2 = .error "AttributeError: get"
    ∧ genDictCurator 0 "" = .ok "[]"
    ∧ genDictCurator 1 "" = .ok "[]"
    ∧ genDictCurator 2 "" = .ok "\x7b\"a\": [1]\x7d"
    ∧ genDictCurator 3 "" = .ok "[]" :=
  ⟨rfl, rfl, rfl, rfl, rfl⟩

/-- C2 (amended): provided each stage's extracted structure supports the
pipeline's own operations on it - the market and architect structures have
a length, enrichment succeeds on the curated structure (in particular when
it is a list of mappings or a provider is absent), and the critic structure
normalizes - a run in which no generative call raises completes with the
full log trail (an empty extracted structure is such a value, not a
failure); and when the k-th generative call raises, the error propagates
and exactly the log entries accumulated before that call are retained. -/
theorem c2_pipeline_failure_modes
    (P : Prompts) (svc : Option ProviderFun) (ts : Nat → String)
    (clock : Nat → String) (profile : Profile) (cmi : Option (List Int))
    (n0 n1 : Nat) (curated2 : JValue) (normOut : List JValue)
    (h0 : jLen (cleanJson (ts 0)) = .ok n0)
    (h1 : jLen (cleanJson (ts 1)) = .ok n1)
    (h2 : enrichResources svc (cleanJson (ts 2)) profile.targetRole
      profile.preferredStyle = .ok curated2)
    (h3 : normalizeRoadmap (cleanJson (ts 3)) = .ok normOut) :
    generateLearningPath P svc (fun i _ => .ok (ts i)) clock profile cmi =
      (expectedLogs profile clock n0 n1, .ok (cleanJson (ts 0), normOut))
    ∧ (∀ e : String,
        generateLearningPath P svc (fun i _ => if i = 0 then .error e else .ok (ts i))
          clock profile cmi = ((expectedLogs profile clock n0 n1).take 1, .error e))
    ∧ (∀ e : String,
        generateLearningPath P svc (fun i _ => if i = 1 then .error e else .ok (ts i))
          clock profile cmi = ((expectedLogs profile clock n0 n1).take 3, .error e))
    ∧ (∀ e : String,
        generateLearningPath P svc (fun i _ => if i = 2 then .error e else .ok (ts i))
          clock profile cmi = ((expectedLogs profile clock n0 n1).take 5, .error e))
    ∧ (∀ e : String,
        generateLearningPath P svc (fun i _ => if i = 3 then .error e else .ok (ts i))
          clock profile cmi = ((expectedLogs profile clock n0 n1).take 8, .error e)) := by
  refine ⟨?_, ?_, ?_, ?_, ?_⟩
  · simp only [generateLearningPath, h0, h1, h2, h3, expectedLogs]
    rfl
  · intro e
    simp [generateLearningPath, expectedLogs]
  · intro e
    simp [generateLearningPath, h0, expectedLogs]
  · intro e
    simp [generateLearningPath, h0, h1, expectedLogs]
  · intro e
    simp [generateLearningPath, h0, h1, h2, expectedLogs]

/-- Witness for C2: a run whose every stage extracts the empty list (with
no provider configured) completes with the full log trail and the empty
roadmap - empty structures flow through without failing. -/
theorem c2_pipeline_witness :
    generateLearningPath promptsFixed none (fun _ _ => .ok "[]") (fun _ => "")
        profileFixed none =
      (expectedLogs profileFixed (fun _ => "") 0 0, .ok (JValue.arr [], [])) := by
  have h := (c2_pipeline_failure_modes promptsFixed none (fun _ => "[]") (fun _ => "")
    profileFixed none 0 0 (JValue.arr []) [] rfl rfl rfl rfl).1
  exact h

theorem resToOpt_addLen (r : ScanRes) :
    resToOpt (r.addLen 1) = (resToOpt r).map (· + 1) := by
  cases r <;> rfl

theorem scanBalance_eq_runScan (l : List Char) :
    ∀ stack inStr esc, scanBalance stack l inStr esc = resToOpt (runScan stack l inStr esc) := by
  induction l with
  | nil => intro stack inStr esc; rfl
  | cons c rest ih =>
    intro stack inStr esc
    unfold scanBalance runScan
    by_cases he : esc
    · simp only [he, if_true, resToOpt_addLen, ih]
    · simp only [he, Bool.false_eq_true, if_false]
      by_cases hb : c = '\\'
      · simp [hb, resToOpt_addLen, ih]
      · simp only [hb, if_false]
        by_cases hq : c = '"'
        · simp [hq, resToOpt_addLen, ih]
        · simp only [hq, if_false]
          by_cases hs : inStr
          · simp only [hs, if_true, resToOpt_addLen, ih]
          · simp only [hs, Bool.false_eq_true, if_false]
            by_cases ho : isOpenCh c
            · simp only [ho, if_true, resToOpt_addLen, ih]
            · simp only [ho, Bool.false_eq_true, if_false]
              by_cases hc : isCloseCh c
              · simp only [hc, if_true]
                cases stack with
                | nil => rfl
                | cons last stackRest =>
                  by_cases hm : (last = '{' && c = '}') || (last = '[' && c = ']')
                  · simp only [hm, if_true]
                    cases stackRest with
                    | nil => rfl
                    | cons a b => simp only [resToOpt_addLen, ih]
                  · simp only [hm, Bool.false_eq_true, if_false]; rfl
              · simp only [hc, Bool.false_eq_true, if_false, resToOpt_addLen, ih]

theorem addLen_succ (r : ScanRes) (len : Nat) :
    r.addLen (len + 1) = (r.addLen len).addLen 1 := by
  cases r <;> simp [ScanRes.addLen, Nat.add_assoc]

theorem seq_addLen_one (r : ScanRes) (len : Nat) (f : List Char → Bool → Bool → ScanRes) :
    (r.addLen 1).seq (len + 1) f = (r.seq len f).addLen 1 := by
  cases r with
  | success n => rfl
  | dead => rfl
  | more st is es =>
    show (ScanRes.more st is es).seq (len + 1) f = ((f st is es).addLen len).addLen 1
    show (f st is es).addLen (len + 1) = ((f st is es).addLen len).addLen 1
    rw [addLen_succ]

theorem runScan_cons (stack : List Char) (c : Char) (rest : List Char) (inStr esc : Bool) :
    runScan stack (c :: rest) inStr esc =
      (if esc then (runScan stack rest inStr false).addLen 1
       else if c = '\\' then (runScan stack rest inStr true).addLen 1
       else if c = '"' then (runScan stack rest (!inStr) false).addLen 1
       else if inStr then (runScan stack rest inStr false).addLen 1
       else if isOpenCh c then (runScan (c :: stack) rest inStr false).addLen 1
       else if isCloseCh c then
         match stack with
         | [] => .dead
         | last :: stackRest =>
           if (last = '{' && c = '}') || (last = '[' && c = ']') then
             match stackRest with
             | [] => .success 1
             | _ :: _ => (runScan stackRest rest inStr false).addLen 1
           else .dead
       else (runScan stack rest inStr false).addLen 1) := rfl

theorem runScan_append (a : List Char) :
    ∀ (b : List Char) (stack : List Char) (inStr esc : Bool),
      runScan stack (a ++ b) inStr esc =
        (runScan stack a inStr esc).seq a.length (fun st is es => runScan st b is es) := by
  induction a with
  | nil =>
    intro b stack inStr esc
    simp only [List.nil_append, List.length_nil, runScan, ScanRes.seq]
    cases hr : runScan stack b inStr esc <;> simp [ScanRes.addLen]
  | cons c a' ih =>
    intro b stack inStr esc
    simp only [List.cons_append, List.length_cons]
    rw [runScan_cons, runScan_cons]
    by_cases he : esc
    · simp only [he, if_true, ih, seq_addLen_one]
    · simp only [he, Bool.false_eq_true, if_false]
      by_cases hb : c = '\\'
      · simp [hb, ih, seq_addLen_one]
      · simp only [hb, if_false]
        by_cases hq : c = '"'
        · simp [hq, ih, seq_addLen_one]
        · simp only [hq, if_false]
          by_cases hs : inStr
          · simp only [hs, if_true, ih, seq_addLen_one]
          · simp only [hs, Bool.false_eq_true, if_false]
            by_cases ho : isOpenCh c
            · simp only [ho, if_true, ih, seq_addLen_one]
            · simp only [ho, Bool.false_eq_true, if_false]
              by_cases hc : isCloseCh c
              · simp only [hc, if_true]
                cases stack with
                | nil => rfl
                | cons last stackRest =>
                  by_cases hm : (last = '{' && c = '}') || (last = '[' && c = ']')
                  · simp only [hm, if_true]
                    cases stackRest with
                    | nil => rfl
                    | cons x y => simp only [ih, seq_addLen_one]
                  · simp only [hm, Bool.false_eq_true, if_false]; rfl
              · simp only [hc, Bool.false_eq_true, if_false, ih, seq_addLen_one]

theorem addLen_more (stack : List Char) (inStr esc : Bool) (len : Nat) :
    (ScanRes.more stack inStr esc).addLen len = .more stack inStr esc := rfl

theorem runScan_other (stack l : List Char)
    (h : ∀ c ∈ l, c ≠ '\\' ∧ c ≠ '"' ∧ isOpenCh c = false ∧ isCloseCh c = false) :
    ∀ inStr : Bool, runScan stack l inStr false = .more stack inStr false := by
  induction l with
  | nil => intro inStr; rfl
  | cons c rest ih =>
    intro inStr
    obtain ⟨h1, h2, h3, h4⟩ := h c (by simp)
    rw [runScan_cons]
    simp only [if_false, h1, h2, h3, h4, Bool.false_eq_true]
    have ihr := ih (fun c' hc' => h c' (by simp [hc'])) inStr
    cases hs : inStr
    · simp only [Bool.false_eq_true, if_false]
      rw [hs] at ihr
      rw [ihr, addLen_more]
    · simp only [if_true]
      rw [hs] at ihr
      rw [ihr, addLen_more]

theorem runScan_inStr (stack l : List Char)
    (h : ∀ c ∈ l, c ≠ '\\' ∧ c ≠ '"') :
    runScan stack l true false = .more stack true false := by
  induction l with
  | nil => rfl
  | cons c rest ih =>
    obtain ⟨h1, h2⟩ := h c (by simp)
    rw [runScan_cons]
    simp only [if_false, h1, h2, Bool.false_eq_true, if_true]
    rw [ih (fun c' hc' => h c' (by simp [hc'])), addLen_more]

theorem runScan_backslashPair (stack : List Char) (x : Char) (rest : List Char) :
    runScan stack ('\\' :: x :: rest) true false = (runScan stack rest true false).addLen 2 := by
  rw [runScan_cons]
  simp only [if_false, if_pos rfl, Bool.false_eq_true, if_true]
  rw [runScan_cons]
  simp only [if_true]
  cases hr : runScan stack rest true false <;> simp [ScanRes.addLen] <;> omega

theorem hexDigit_facts (k : Nat) (hk : k < 16) :
    hexDigit k ≠ '\\' ∧ hexDigit k ≠ '"' := by
  interval_cases k <;> exact ⟨by decide, by decide⟩

theorem runScan_escChar (stack : List Char) (c : Char) :
    runScan stack (jsonEscapeChar c) true false = .more stack true false := by
  unfold jsonEscapeChar
  split_ifs with h1 h2 h3 h4 h5 h6 h7 h8
  · rw [show (['\\', '"'] : List Char) = '\\' :: '"' :: [] from rfl, runScan_backslashPair]; rfl
  · rw [show (['\\', '\\'] : List Char) = '\\' :: '\\' :: [] from rfl, runScan_backslashPair]; rfl
  · rw [runScan_backslashPair]; rfl
  · rw [runScan_backslashPair]; rfl
  · rw [runScan_backslashPair]; rfl
  · rw [runScan_backslashPair]; rfl
  · rw [runScan_backslashPair]; rfl
  · rw [show ('\\' :: 'u' :: '0' :: '0' :: hexDigit (c.toNat / 16) :: hexDigit (c.toNat % 16) :: [] : List Char) =
      ('\\' :: 'u' :: []) ++ ('0' :: '0' :: hexDigit (c.toNat / 16) :: hexDigit (c.toNat % 16) :: []) from rfl]
    rw [runScan_append, runScan_backslashPair]
    have hd1 := hexDigit_facts (c.toNat / 16) (by omega)
    have hd2 := hexDigit_facts (c.toNat % 16) (Nat.mod_lt _ (by omega))
    rw [show runScan stack ([] : List Char) true false = .more stack true false from rfl]
    rw [show (ScanRes.more stack true false).addLen 2 = .more stack true false from rfl]
    show (runScan stack _ true false).addLen 2 = _
    rw [runScan_inStr stack _ ?
      hchars]
    · rfl
    case hchars =>
      intro x hx
      simp only [List.mem_cons, List.not_mem_nil, or_false] at hx
      rcases hx with rfl | rfl | rfl | rfl
      · exact ⟨by decide, by decide⟩
      · exact ⟨by decide, by decide⟩
      · exact hd1
      · exact hd2
  · exact runScan_inStr stack [c] (by
      intro x hx
      simp only [List.mem_singleton] at hx
      subst hx
      exact ⟨h2, h1⟩)

theorem runScan_escBody (stack : List Char) (cs : List Char) :
    runScan stack (cs.flatMap jsonEscapeChar) true false = .more stack true false := by
  induction cs with
  | nil => rfl
  | cons c rest ih =>
    rw [List.flatMap_cons, runScan_append, runScan_escChar]
    show (runScan stack (rest.flatMap jsonEscapeChar) true false).addLen _ = _
    rw [ih, addLen_more]

theorem runScan_strDump (stack : List Char) (s : String) :
    runScan stack (strDumpChars s) false false = .more stack false false := by
  unfold strDumpChars
  rw [List.cons_append, runScan_cons]
  simp only [if_false, Bool.false_eq_true, if_true]
  rw [if_neg (by decide : ¬('"' : Char) = '\\')]
  rw [show (!false) = true from rfl]
  rw [runScan_append, runScan_escBody]
  rfl

theorem digitChar_cases (k : Nat) :
    digitChar k = '0' ∨ digitChar k = '1' ∨ digitChar k = '2' ∨ digitChar k = '3' ∨
    digitChar k = '4' ∨ digitChar k = '5' ∨ digitChar k = '6' ∨ digitChar k = '7' ∨
    digitChar k = '8' ∨ digitChar k = '9' := by
  rcases k with _|_|_|_|_|_|_|_|_|k
  · exact Or.inl rfl
  · exact Or.inr (Or.inl rfl)
  · exact Or.inr (Or.inr (Or.inl rfl))
  · exact Or.inr (Or.inr (Or.inr (Or.inl rfl)))
  · exact Or.inr (Or.inr (Or.inr (Or.inr (Or.inl rfl))))
  · exact Or.inr (Or.inr (Or.inr (Or.inr (Or.inr (Or.inl rfl)))))
  · exact Or.inr (Or.inr (Or.inr (Or.inr (Or.inr (Or.inr (Or.inl rfl))))))
  · exact Or.inr (Or.inr (Or.inr (Or.inr (Or.inr (Or.inr (Or.inr (Or.inl rfl)))))))
  · exact Or.inr (Or.inr (Or.inr (Or.inr (Or.inr (Or.inr (Or.inr (Or.inr (Or.inl rfl))))))))
  · exact Or.inr (Or.inr (Or.inr (Or.inr (Or.inr (Or.inr (Or.inr (Or.inr (Or.inr rfl))))))))

theorem digitChar_notspecial (k : Nat) :
    (digitChar k).isDigit = true ∧ digitChar k ≠ '\\' ∧ digitChar k ≠ '"' ∧
    isOpenCh (digitChar k) = false ∧ isCloseCh (digitChar k) = false := by
  rcases digitChar_cases k with h|h|h|h|h|h|h|h|h|h <;> rw [h] <;>
    exact ⟨by decide, by decide, by decide, by decide, by decide⟩

theorem digitChar_val (k : Nat) (hk : k < 10) : (digitChar k).toNat = 48 + k := by
  interval_cases k <;> decide

theorem natDigitsSpec_all_digitChar (n : Nat) :
    ∀ c ∈ natDigitsSpec n, ∃ k, c = digitChar k := by
  induction n using Nat.strong_induction_on with
  | _ n ih =>
    unfold natDigitsSpec
    by_cases h : n < 10
    · simp only [h, if_true]
      intro c hc
      simp only [List.mem_singleton] at hc
      exact ⟨n, hc⟩
    · simp only [h, if_false]
      intro c hc
      rcases List.mem_append.mp hc with hc | hc
      · exact ih (n / 10) (Nat.div_lt_self (by omega) (by omega)) c hc
      · simp only [List.mem_singleton] at hc
        exact ⟨n % 10, hc⟩

theorem natDigitsSpec_ne_nil (n : Nat) : natDigitsSpec n ≠ [] := by
  unfold natDigitsSpec
  by_cases h : n < 10 <;> simp [h]

theorem natDigitsAux_eq_spec : ∀ (fuel n : Nat) (acc : List Char), n < fuel →
    natDigitsAux fuel n acc = natDigitsSpec n ++ acc := by
  intro fuel
  induction fuel with
  | zero => intro n acc h; omega
  | succ fuel ih =>
    intro n acc h
    unfold natDigitsAux
    by_cases h10 : n < 10
    · rw [if_pos h10]
      conv_rhs => rw [natDigitsSpec]
      rw [if_pos h10, Nat.mod_eq_of_lt h10]
      rfl
    · rw [if_neg h10]
      rw [ih (n / 10) _ (by omega)]
      conv_rhs => rw [natDigitsSpec]
      rw [if_neg h10, List.append_assoc]
      rfl

theorem intDumpChars_chars (n : Int) :
    ∀ c ∈ intDumpChars n, c = '-' ∨ ∃ k, c = digitChar k := by
  intro c hc
  unfold intDumpChars at hc
  by_cases h : n < 0
  · rw [if_pos h] at hc
    rw [natDigitsAux_eq_spec _ _ _ (by omega)] at hc
    simp only [List.append_nil, List.mem_cons] at hc
    rcases hc with rfl | hc
    · exact Or.inl rfl
    · exact Or.inr (natDigitsSpec_all_digitChar _ c hc)
  · rw [if_neg h] at hc
    rw [natDigitsAux_eq_spec _ _ _ (by omega)] at hc
    simp only [List.append_nil] at hc
    exact Or.inr (natDigitsSpec_all_digitChar _ c hc)

theorem runScan_intDump (stack : List Char) (n : Int) (inStr : Bool) :
    runScan stack (intDumpChars n) inStr false = .more stack inStr false := by
  apply runScan_other
  intro c hc
  rcases intDumpChars_chars n c hc with rfl | ⟨k, rfl⟩
  · exact ⟨by decide, by decide, by decide, by decide⟩
  · obtain ⟨_, h2, h3, h4, h5⟩ := digitChar_notspecial k
    exact ⟨h2, h3, h4, h5⟩

mutual

theorem dumpNeutral : ∀ (v : JValue) (stack : List Char), stack ≠ [] →
    runScan stack (jdumpChars v) false false = .more stack false false
  | .null, stack, _ => runScan_other stack "null".toList (by decide) false
  | .bool true, stack, _ => runScan_other stack "true".toList (by decide) false
  | .bool false, stack, _ => runScan_other stack "false".toList (by decide) false
  | .num n, stack, _ => runScan_intDump stack n false
  | .str s, stack, _ => runScan_strDump stack s
  | .arr l, stack, h => by
    show runScan stack (('[' :: jdumpElems l) ++ [']']) false false = _
    rw [List.cons_append, runScan_cons]
    rw [if_neg (by simp), if_neg (by decide : ¬('[' : Char) = '\\'),
      if_neg (by decide : ¬('[' : Char) = '"'), if_neg (by simp),
      if_pos (by decide : isOpenCh '[' = true)]
    rw [runScan_append, elemsNeutral l ('[' :: stack) (by simp)]
    show ((runScan ('[' :: stack) [']'] false false).addLen _).addLen 1 = _
    rw [runScan_cons]
    rw [if_neg (by simp), if_neg (by decide : ¬(']' : Char) = '\\'),
      if_neg (by decide : ¬(']' : Char) = '"'), if_neg (by simp),
      if_neg (by decide : ¬isOpenCh ']' = true), if_pos (by decide : isCloseCh ']' = true)]
    cases stack with
    | nil => exact absurd rfl h
    | cons s0 srest => rfl
  | .obj kvs, stack, h => by
    show runScan stack (('{' :: jdumpFields kvs) ++ ['}']) false false = _
    rw [List.cons_append, runScan_cons]
    rw [if_neg (by simp), if_neg (by decide : ¬('{' : Char) = '\\'),
      if_neg (by decide : ¬('{' : Char) = '"'), if_neg (by simp),
      if_pos (by decide : isOpenCh '{' = true)]
    rw [runScan_append, fieldsNeutral kvs ('{' :: stack) (by simp)]
    show ((runScan ('{' :: stack) ['}'] false false).addLen _).addLen 1 = _
    rw [runScan_cons]
    rw [if_neg (by simp), if_neg (by decide : ¬('}' : Char) = '\\'),
      if_neg (by decide : ¬('}' : Char) = '"'), if_neg (by simp),
      if_neg (by decide : ¬isOpenCh '}' = true), if_pos (by decide : isCloseCh '}' = true)]
    cases stack with
    | nil => exact absurd rfl h
    | cons s0 srest => rfl

theorem elemsNeutral : ∀ (l : List JValue) (stack : List Char), stack ≠ [] →
    runScan stack (jdumpElems l) false false = .more stack false false
  | [], _, _ => rfl
  | [v], stack, h => dumpNeutral v stack h
  | v :: v2 :: rest, stack, h => by
    show runScan stack (jdumpChars v ++ ',' :: ' ' :: jdumpElems (v2 :: rest)) false false = _
    rw [runScan_append, dumpNeutral v stack h]
    show (runScan stack (([',', ' '] : List Char) ++ jdumpElems (v2 :: rest)) false false).addLen _ = _
    rw [runScan_append, runScan_other stack [',', ' '] (by decide) false]
    show (((runScan stack (jdumpElems (v2 :: rest)) false false).addLen _).addLen _) = _
    rw [elemsNeutral (v2 :: rest) stack h]
    rfl

theorem fieldsNeutral : ∀ (kvs : List (String × JValue)) (stack : List Char), stack ≠ [] →
    runScan stack (jdumpFields kvs) false false = .more stack false false
  | [], _, _ => rfl
  | [(k, v)], stack, h => by
    show runScan stack (strDumpChars k ++ ':' :: ' ' :: jdumpChars v) false false = _
    rw [runScan_append, runScan_strDump]
    show (runScan stack (([':', ' '] : List Char) ++ jdumpChars v) false false).addLen _ = _
    rw [runScan_append, runScan_other stack [':', ' '] (by decide) false]
    show (((runScan stack (jdumpChars v) false false).addLen _).addLen _) = _
    rw [dumpNeutral v stack h]
    rfl
  | (k, v) :: kv2 :: rest, stack, h => by
    have hA : runScan stack (strDumpChars k ++ ':' :: ' ' :: jdumpChars v) false false =
        .more stack false false := by
      rw [runScan_append, runScan_strDump]
      show (runScan stack (([':', ' '] : List Char) ++ jdumpChars v) false false).addLen _ = _
      rw [runScan_append, runScan_other stack [':', ' '] (by decide) false]
      show ((runScan stack (jdumpChars v) false false).addLen _).addLen _ = _
      rw [dumpNeutral v stack h]
      rfl
    show runScan stack ((strDumpChars k ++ ':' :: ' ' :: jdumpChars v) ++ ',' :: ' ' :: jdumpFields (kv2 :: rest)) false false = _
    rw [runScan_append, hA]
    show (runScan stack (([',', ' '] : List Char) ++ jdumpFields (kv2 :: rest)) false false).addLen _ = _
    rw [runScan_append, runScan_other stack [',', ' '] (by decide) false]
    show ((runScan stack (jdumpFields (kv2 :: rest)) false false).addLen _).addLen _ = _
    rw [fieldsNeutral (kv2 :: rest) stack h]
    rfl

end

theorem scanBalance_brackets (inner : List Char) (opc clc : Char)
    (hoc : isOpenCh opc = true) (hmatch : (opc = '{' && clc = '}') || (opc = '[' && clc = ']'))
    (hne1 : opc ≠ '\\') (hne2 : opc ≠ '"')
    (hinner : runScan [opc] inner false false = .more [opc] false false)
    (hne3 : clc ≠ '\\') (hne4 : clc ≠ '"') (hcc : isCloseCh clc = true)
    (hno : isOpenCh clc = false) :
    scanBalance [opc] (inner ++ [clc]) false false = some (inner.length + 1) := by
  rw [scanBalance_eq_runScan, runScan_append, hinner]
  show resToOpt ((runScan [opc] [clc] false false).addLen inner.length) = _
  rw [runScan_cons]
  rw [if_neg (by simp), if_neg hne3, if_neg hne4, if_neg (by simp),
    if_neg (by simp [hno]), if_pos hcc]
  simp only [hmatch, if_true]
  show resToOpt ((ScanRes.success 1).addLen inner.length) = _
  show some (1 + inner.length) = _
  rw [Nat.add_comm]

theorem extract_dump (v : JValue) (h : rootContainer v = true) :
    extractFrom (jdumpChars v) = some (jdumpChars v) := by
  cases v with
  | arr l =>
    have hscan := scanBalance_brackets (jdumpElems l) '[' ']' (by decide) (by decide)
      (by decide) (by decide) (elemsNeutral l ['['] (by simp)) (by decide) (by decide)
      (by decide) (by decide)
    show extractFrom ('[' :: (jdumpElems l ++ [']'])) = _
    unfold extractFrom
    rw [if_pos (by decide : isOpenCh '[' = true), hscan]
    have : (jdumpElems l ++ [']']).take ((jdumpElems l).length + 1) = jdumpElems l ++ [']'] := by
      rw [show (jdumpElems l).length + 1 = (jdumpElems l ++ [']']).length by simp]
      exact List.take_length _
    show some ('[' :: (jdumpElems l ++ [']']).take ((jdumpElems l).length + 1)) = _
    rw [this]
    rfl
  | obj kvs =>
    have hscan := scanBalance_brackets (jdumpFields kvs) '{' '}' (by decide) (by decide)
      (by decide) (by decide) (fieldsNeutral kvs ['{'] (by simp)) (by decide) (by decide)
      (by decide) (by decide)
    show extractFrom ('{' :: (jdumpFields kvs ++ ['}'])) = _
    unfold extractFrom
    rw [if_pos (by decide : isOpenCh '{' = true), hscan]
    have : (jdumpFields kvs ++ ['}']).take ((jdumpFields kvs).length + 1) = jdumpFields kvs ++ ['}'] := by
      rw [show (jdumpFields kvs).length + 1 = (jdumpFields kvs ++ ['}']).length by simp]
      exact List.take_length _
    show some ('{' :: (jdumpFields kvs ++ ['}']).take ((jdumpFields kvs).length + 1)) = _
    rw [this]
    rfl
  | null => simp [rootContainer] at h
  | bool b => simp [rootContainer] at h
  | num n => simp [rootContainer] at h
  | str s => simp [rootContainer] at h

theorem hexVal_hexDigit (k : Nat) (hk : k < 16) : hexVal (hexDigit k) = some k := by
  interval_cases k <;> decide

theorem psb_quote (r : List Char) : parseStrBody ('"' :: r) = some ([], r) := by
  rw [parseStrBody.eq_def]
  simp

theorem psb_esc_quote (r : List Char) :
    parseStrBody ('\\' :: '"' :: r) = (parseStrBody r).map (fun p => ('"' :: p.1, p.2)) := by
  rw [parseStrBody.eq_def]
  simp

theorem psb_esc_back (r : List Char) :
    parseStrBody ('\\' :: '\\' :: r) = (parseStrBody r).map (fun p => ('\\' :: p.1, p.2)) := by
  rw [parseStrBody.eq_def]
  simp

theorem psb_esc_n (r : List Char) :
    parseStrBody ('\\' :: 'n' :: r) = (parseStrBody r).map (fun p => ('\n' :: p.1, p.2)) := by
  rw [parseStrBody.eq_def]
  simp

theorem psb_esc_t (r : List Char) :
    parseStrBody ('\\' :: 't' :: r) = (parseStrBody r).map (fun p => ('\t' :: p.1, p.2)) := by
  rw [parseStrBody.eq_def]
  simp

theorem psb_esc_r (r : List Char) :
    parseStrBody ('\\' :: 'r' :: r) = (parseStrBody r).map (fun p => ('\x0d' :: p.1, p.2)) := by
  rw [parseStrBody.eq_def]
  simp

theorem psb_esc_b (r : List Char) :
    parseStrBody ('\\' :: 'b' :: r) = (parseStrBody r).map (fun p => ('\x08' :: p.1, p.2)) := by
  rw [parseStrBody.eq_def]
  simp

theorem psb_esc_f (r : List Char) :
    parseStrBody ('\\' :: 'f' :: r) = (parseStrBody r).map (fun p => ('\x0c' :: p.1, p.2)) := by
  rw [parseStrBody.eq_def]
  simp

theorem psb_esc_u (h1 h2 h3 h4 : Char) (r3 : List Char) :
    parseStrBody ('\\' :: 'u' :: h1 :: h2 :: h3 :: h4 :: r3) =
      (match hexVal h1, hexVal h2, hexVal h3, hexVal h4 with
       | some a, some b, some cc, some d =>
         (parseStrBody r3).map (fun p =>
           (Char.ofNat (a * 4096 + b * 256 + cc * 16 + d) :: p.1, p.2))
       | _, _, _, _ => none) := by
  rw [parseStrBody.eq_def]
  simp

theorem psb_raw (c : Char) (r : List Char) (h1 : c ≠ '"') (h2 : c ≠ '\\')
    (h3 : ¬(c.toNat < 32)) :
    parseStrBody (c :: r) = (parseStrBody r).map (fun p => (c :: p.1, p.2)) := by
  rw [parseStrBody.eq_def]
  simp only [if_neg h1, if_neg h2, h3, if_false]

section
attribute [local irreducible] parseStrBody
theorem parseStrBody_dump (cs : List Char) (rest : List Char) :
    parseStrBody ((cs.flatMap jsonEscapeChar) ++ '"' :: rest) = some (cs, rest) := by
  induction cs with
  | nil => simp [psb_quote]
  | cons c cs' ih =>
    rw [List.flatMap_cons, List.append_assoc]
    generalize hT : (cs'.flatMap jsonEscapeChar ++ '"' :: rest) = T at ih
    unfold jsonEscapeChar
    split_ifs with h1 h2 h3 h4 h5 h6 h7 h8
    · subst h1
      simp only [List.cons_append, List.nil_append, psb_esc_quote, ih, Option.map_some']
    · subst h2
      simp only [List.cons_append, List.nil_append, psb_esc_back, ih, Option.map_some']
    · subst h3
      simp only [List.cons_append, List.nil_append, psb_esc_n, ih, Option.map_some']
    · subst h4
      simp only [List.cons_append, List.nil_append, psb_esc_t, ih, Option.map_some']
    · subst h5
      simp only [List.cons_append, List.nil_append, psb_esc_r, ih, Option.map_some']
    · subst h6
      simp only [List.cons_append, List.nil_append, psb_esc_b, ih, Option.map_some']
    · subst h7
      simp only [List.cons_append, List.nil_append, psb_esc_f, ih, Option.map_some']
    · have hdiv : c.toNat / 16 < 16 := by omega
      have hmod : c.toNat % 16 < 16 := Nat.mod_lt _ (by omega)
      simp only [List.cons_append, List.nil_append, psb_esc_u,
        hexVal_hexDigit _ hdiv, hexVal_hexDigit _ hmod,
        show hexVal '0' = some 0 from rfl, ih, Option.map_some']
      rw [show (0 * 4096 + 0 * 256 + c.toNat / 16 * 16 + c.toNat % 16) = c.toNat by omega]
      rw [Char.ofNat_toNat]
    · simp only [List.cons_append, List.nil_append,
        psb_raw c _ h1 h2 h8, ih, Option.map_some']

end

theorem takeDigits_append (ds rest : List Char)
    (hds : ∀ c ∈ ds, c.isDigit = true)
    (hrest : ∀ c, rest.head? = some c → c.isDigit = false) :
    takeDigits (ds ++ rest) = (ds, rest) := by
  induction ds with
  | nil =>
    cases rest with
    | nil => rfl
    | cons c t =>
      show takeDigits (c :: t) = ([], c :: t)
      rw [takeDigits.eq_def]
      show (if c.isDigit = true then (c :: (takeDigits t).1, (takeDigits t).2)
        else ([], c :: t)) = ([], c :: t)
      rw [if_neg (by simp [hrest c rfl])]
  | cons d ds' ih =>
    show takeDigits (d :: (ds' ++ rest)) = (d :: ds', rest)
    rw [takeDigits.eq_def]
    show (if d.isDigit = true then
        (d :: (takeDigits (ds' ++ rest)).1, (takeDigits (ds' ++ rest)).2)
      else ([], d :: (ds' ++ rest))) = (d :: ds', rest)
    rw [if_pos (hds d (List.mem_cons_self _ _))]
    rw [ih (fun c hc => hds c (List.mem_cons_of_mem _ hc))]

theorem digitsToNat_nil (acc : Nat) : digitsToNat acc [] = acc := rfl

theorem digitsToNat_cons (acc : Nat) (c : Char) (rest : List Char) :
    digitsToNat acc (c :: rest) = digitsToNat (acc * 10 + (c.toNat - 48)) rest := rfl

theorem digitsToNat_append (l1 l2 : List Char) : ∀ acc,
    digitsToNat acc (l1 ++ l2) = digitsToNat (digitsToNat acc l1) l2 := by
  induction l1 with
  | nil => intro acc; rfl
  | cons c t ih =>
    intro acc
    rw [List.cons_append, digitsToNat_cons, digitsToNat_cons, ih]

theorem natDigitsSpec_digits (n : Nat) : ∀ c ∈ natDigitsSpec n, c.isDigit = true := by
  intro c hc
  obtain ⟨k, rfl⟩ := natDigitsSpec_all_digitChar n c hc
  exact (digitChar_notspecial k).1

theorem digitsToNat_spec (n : Nat) : ∀ acc,
    digitsToNat acc (natDigitsSpec n) = acc * 10 ^ (natDigitsSpec n).length + n := by
  induction n using Nat.strong_induction_on with
  | _ n ih =>
    intro acc
    by_cases h : n < 10
    · rw [natDigitsSpec, if_pos h]
      rw [digitsToNat_cons, digitsToNat_nil]
      rw [digitChar_val n h]
      show acc * 10 + (48 + n - 48) = acc * 10 ^ 1 + n
      rw [pow_one]
      omega
    · rw [natDigitsSpec, if_neg h]
      rw [digitsToNat_append, ih (n / 10) (Nat.div_lt_self (by omega) (by omega))]
      rw [digitsToNat_cons, digitsToNat_nil]
      rw [digitChar_val (n % 10) (Nat.mod_lt _ (by omega))]
      rw [List.length_append, List.length_singleton, pow_succ]
      have hk : 0 < 10 ^ (natDigitsSpec (n / 10)).length := Nat.pos_pow_of_pos _ (by omega)
      generalize 10 ^ (natDigitsSpec (n / 10)).length = K at *
      have hdm : n / 10 * 10 + n % 10 = n := by omega
      calc (acc * K + n / 10) * 10 + (48 + n % 10 - 48)
      _ = acc * (K * 10) + (n / 10 * 10 + n % 10) := by ring_nf; omega
      _ = acc * (K * 10) + n := by rw [hdm]

theorem digitsToNat_spec_zero (n : Nat) : digitsToNat 0 (natDigitsSpec n) = n := by
  rw [digitsToNat_spec]
  simp

theorem natDigitsSpec_headI (n : Nat) : 1 ≤ n → (natDigitsSpec n).headI ≠ '0' := by
  induction n using Nat.strong_induction_on with
  | _ n ih =>
    intro h1
    rw [natDigitsSpec]
    by_cases h : n < 10
    · rw [if_pos h]
      show digitChar n ≠ '0'
      intro hc
      have hv := digitChar_val n h
      rw [hc] at hv
      have : (48 : Nat) = 48 + n := hv
      omega
    · rw [if_neg h]
      have hne := natDigitsSpec_ne_nil (n / 10)
      cases hsp : natDigitsSpec (n / 10) with
      | nil => exact absurd hsp hne
      | cons a t =>
        have := ih (n / 10) (Nat.div_lt_self (by omega) (by omega)) (by omega)
        rw [hsp] at this
        rw [List.cons_append]
        simpa using this

theorem natDigitsSpec_no_leading_zero (n : Nat) :
    ¬((natDigitsSpec n).length > 1 ∧ (natDigitsSpec n).headI = '0') := by
  rintro ⟨hlen, hhead⟩
  by_cases h1 : 1 ≤ n
  · exact natDigitsSpec_headI n h1 hhead
  · have : n = 0 := by omega
    subst this
    rw [show natDigitsSpec 0 = ['0'] by rw [natDigitsSpec, if_pos (by norm_num)]; rfl] at hlen
    simp at hlen

theorem numBoundary_head (rest : List Char) (hrest : numBoundary rest) :
    ∀ c, rest.head? = some c → c.isDigit = false ∧ c ≠ '.' ∧ c ≠ 'e' ∧ c ≠ 'E' := by
  intro c hc
  cases rest with
  | nil => simp at hc
  | cons d t =>
    simp only [List.head?_cons, Option.some.injEq] at hc
    subst hc
    exact hrest

theorem no_lz_imp (a : Char) (t : List Char)
    (hlz : ¬((a :: t).length > 1 ∧ (a :: t).headI = '0')) :
    0 < t.length → ¬a = '0' := by
  intro hlen hc
  exact hlz ⟨by simp; omega, by simp [hc]⟩

theorem parseJsonInt_spec_append (m : Nat) (rest : List Char) (hrest : numBoundary rest) :
    parseJsonInt (natDigitsSpec m ++ rest) = some ((m : Int), rest) := by
  have hdig := natDigitsSpec_digits m
  have htd := takeDigits_append (natDigitsSpec m) rest hdig
    (fun c hc => (numBoundary_head rest hrest c hc).1)
  have hlz := natDigitsSpec_no_leading_zero m
  have hval := digitsToNat_spec_zero m
  cases hsp : natDigitsSpec m with
  | nil => exact absurd hsp (natDigitsSpec_ne_nil m)
  | cons a t =>
    rw [hsp] at htd hlz hval hdig
    have ha : (a = '-') = False := eq_false (by
      have h1 := hdig a (List.mem_cons_self _ _)
      intro hc
      rw [hc] at h1
      exact absurd h1 (by decide))
    have hlz' : ((a :: t).length > 1 ∧ (a :: t).headI = '0') = False := eq_false hlz
    rw [List.cons_append, parseJsonInt.eq_def]
    simp only [List.cons_append] at htd
    cases rest with
    | nil =>
      rw [List.append_nil] at htd
      simp [ha, htd, hval]
      exact no_lz_imp a t hlz
    | cons d r =>
      obtain ⟨hd1, hd2, hd3, hd4⟩ := numBoundary_head (d :: r) hrest d rfl
      have hcond : (d = '.' ∨ d = 'e' ∨ d = 'E') = False := eq_false (by
        rintro (hc | hc | hc)
        · exact hd2 hc
        · exact hd3 hc
        · exact hd4 hc)
      simp [ha, htd, hval, hcond]
      exact no_lz_imp a t hlz

theorem parseJsonInt_neg_append (m : Nat) (rest : List Char) (hrest : numBoundary rest) :
    parseJsonInt ('-' :: (natDigitsSpec m ++ rest)) = some (-(m : Int), rest) := by
  have hdig := natDigitsSpec_digits m
  have htd := takeDigits_append (natDigitsSpec m) rest hdig
    (fun c hc => (numBoundary_head rest hrest c hc).1)
  have hlz := natDigitsSpec_no_leading_zero m
  have hval := digitsToNat_spec_zero m
  cases hsp : natDigitsSpec m with
  | nil => exact absurd hsp (natDigitsSpec_ne_nil m)
  | cons a t =>
    rw [hsp] at htd hlz hval
    have hlz' : ((a :: t).length > 1 ∧ (a :: t).headI = '0') = False := eq_false hlz
    rw [List.cons_append, parseJsonInt.eq_def]
    simp only [List.cons_append] at htd
    cases rest with
    | nil =>
      rw [List.append_nil] at htd
      simp [htd, hval]
      exact no_lz_imp a t hlz
    | cons d r =>
      obtain ⟨hd1, hd2, hd3, hd4⟩ := numBoundary_head (d :: r) hrest d rfl
      have hcond : (d = '.' ∨ d = 'e' ∨ d = 'E') = False := eq_false (by
        rintro (hc | hc | hc)
        · exact hd2 hc
        · exact hd3 hc
        · exact hd4 hc)
      simp [htd, hval, hcond]
      exact no_lz_imp a t hlz

theorem parseJsonInt_dump (n : Int) (rest : List Char) (hrest : numBoundary rest) :
    parseJsonInt (intDumpChars n ++ rest) = some (n, rest) := by
  unfold intDumpChars
  by_cases h : n < 0
  · rw [if_pos h, natDigitsAux_eq_spec _ _ _ (by omega), List.append_nil]
    rw [List.cons_append, parseJsonInt_neg_append n.natAbs rest hrest]
    congr 1
    congr 1
    omega
  · rw [if_neg h, natDigitsAux_eq_spec _ _ _ (by omega), List.append_nil]
    rw [parseJsonInt_spec_append n.toNat rest hrest]
    congr 1
    congr 1
    omega

theorem skipWs_cons_ws (c : Char) (l : List Char) (h : jsonWsCh c = true) :
    skipWs (c :: l) = skipWs l := by
  unfold skipWs
  rw [List.dropWhile_cons, if_pos h]

theorem skipWs_cons_not (c : Char) (l : List Char) (h : jsonWsCh c = false) :
    skipWs (c :: l) = c :: l := by
  unfold skipWs
  rw [List.dropWhile_cons, if_neg (by simp [h])]

theorem parseVal_ws (fuel : Nat) (l : List Char) :
    parseVal fuel (' ' :: l) = parseVal fuel l := by
  cases fuel with
  | zero => rfl
  | succ f =>
    rw [parseVal.eq_def]
    conv_rhs => rw [parseVal.eq_def]
    simp only [skipWs_cons_ws ' ' l (by decide)]

theorem parseElems_ws (fuel : Nat) (l : List Char) :
    parseElems fuel (' ' :: l) = parseElems fuel l := by
  cases fuel with
  | zero => rfl
  | succ f =>
    rw [parseElems.eq_def]
    conv_rhs => rw [parseElems.eq_def]
    simp only [parseVal_ws]

theorem parseMembers_ws (fuel : Nat) (l : List Char) :
    parseMembers fuel (' ' :: l) = parseMembers fuel l := by
  cases fuel with
  | zero => rfl
  | succ f =>
    rw [parseMembers.eq_def]
    conv_rhs => rw [parseMembers.eq_def]
    simp only [skipWs_cons_ws ' ' l (by decide)]

theorem pyLookup_cons (k2 : String) (v : JValue) (rest : List (String × JValue)) (k : String) :
    pyLookup ((k2, v) :: rest) k = if k2 = k then some v else pyLookup rest k := rfl

theorem pyLookup_keyAbsent (k : String) (kvs : List (String × JValue))
    (h : keyAbsent k kvs = true) : pyLookup kvs k = none := by
  induction kvs with
  | nil => rfl
  | cons kv rest ih =>
    obtain ⟨k2, v⟩ := kv
    have h' : ¬(k2 = k) ∧ keyAbsent k rest = true := by
      simpa [keyAbsent] using h
    rw [pyLookup_cons, if_neg h'.1]
    exact ih h'.2

theorem dedupInsert_absent (k : String) (v : JValue) (kvs : List (String × JValue))
    (h : keyAbsent k kvs = true) : dedupInsert k v kvs = (k, v) :: kvs := by
  unfold dedupInsert
  rw [pyLookup_keyAbsent k kvs h]

theorem intDumpChars_head (n : Int) :
    ∃ a t, intDumpChars n = a :: t ∧ (a = '-' ∨ ∃ k, a = digitChar k) := by
  unfold intDumpChars
  by_cases h : n < 0
  · rw [if_pos h]
    exact ⟨'-', _, rfl, Or.inl rfl⟩
  · rw [if_neg h, natDigitsAux_eq_spec _ _ _ (by omega), List.append_nil]
    cases hsp : natDigitsSpec n.toNat with
    | nil => exact absurd hsp (natDigitsSpec_ne_nil _)
    | cons a t =>
      refine ⟨a, t, rfl, Or.inr ?_⟩
      exact natDigitsSpec_all_digitChar _ a (by rw [hsp]; exact List.mem_cons_self _ _)

theorem numHead_facts (a : Char) (h : a = '-' ∨ ∃ k, a = digitChar k) :
    jsonWsCh a = false ∧ (a = '{') = False ∧ (a = '[') = False ∧ (a = '"') = False ∧
    (a = 't') = False ∧ (a = 'f') = False ∧ (a = 'n') = False := by
  rcases h with rfl | ⟨k, rfl⟩
  · exact ⟨by decide, eq_false (by decide), eq_false (by decide), eq_false (by decide),
      eq_false (by decide), eq_false (by decide), eq_false (by decide)⟩
  · rcases digitChar_cases k with h|h|h|h|h|h|h|h|h|h <;> rw [h] <;>
      exact ⟨by decide, eq_false (by decide), eq_false (by decide), eq_false (by decide),
        eq_false (by decide), eq_false (by decide), eq_false (by decide)⟩

theorem numHead_more (a : Char) (h : a = '-' ∨ ∃ k, a = digitChar k) :
    (a = ']') = False ∧ (a = '}') = False := by
  rcases h with rfl | ⟨k, rfl⟩
  · exact ⟨eq_false (by decide), eq_false (by decide)⟩
  · rcases digitChar_cases k with h|h|h|h|h|h|h|h|h|h <;> rw [h] <;>
      exact ⟨eq_false (by decide), eq_false (by decide)⟩

theorem dump_head (v : JValue) : ∃ a t, jdumpChars v = a :: t ∧ jsonWsCh a = false ∧
    (a = ']') = False ∧ (a = '}') = False := by
  cases v with
  | null => exact ⟨'n', _, rfl, by decide, eq_false (by decide), eq_false (by decide)⟩
  | bool b =>
    cases b
    · exact ⟨'f', _, rfl, by decide, eq_false (by decide), eq_false (by decide)⟩
    · exact ⟨'t', _, rfl, by decide, eq_false (by decide), eq_false (by decide)⟩
  | num n =>
    obtain ⟨a, t, hit, hh⟩ := intDumpChars_head n
    obtain ⟨h1, h2⟩ := numHead_more a hh
    obtain ⟨hws, _, _, _, _, _, _⟩ := numHead_facts a hh
    exact ⟨a, t, by rw [show jdumpChars (.num n) = intDumpChars n from rfl, hit], hws, h1, h2⟩
  | str s =>
    exact ⟨'"', _, rfl, by decide, eq_false (by decide), eq_false (by decide)⟩
  | arr l => exact ⟨'[', _, rfl, by decide, eq_false (by decide), eq_false (by decide)⟩
  | obj kvs => exact ⟨'{', _, rfl, by decide, eq_false (by decide), eq_false (by decide)⟩

theorem sizeJ_pos (v : JValue) : 1 ≤ sizeJ v := by
  cases v with
  | null => exact le_refl 1
  | bool b => exact le_refl 1
  | num n => exact le_refl 1
  | str s => exact le_refl 1
  | arr l => exact Nat.le_add_left 1 (sizeL l)
  | obj kvs => exact Nat.le_add_left 1 (sizeF kvs)

theorem strmk_toList (s : String) : String.mk s.toList = s := rfl

theorem numBoundary_cons (c : Char) (r : List Char) (h1 : c.isDigit = false)
    (h2 : c ≠ '.') (h3 : c ≠ 'e') (h4 : c ≠ 'E') : numBoundary (c :: r) :=
  ⟨h1, h2, h3, h4⟩

theorem numBoundary_nil : numBoundary [] := trivial

theorem elems_head (v : JValue) (vs : List JValue) :
    ∃ a t, jdumpElems (v :: vs) = a :: t ∧ jsonWsCh a = false ∧
      (a = ']') = False ∧ (a = '}') = False := by
  obtain ⟨a, t, hd, hws, h1, h2⟩ := dump_head v
  cases vs with
  | nil => exact ⟨a, t, by rw [show jdumpElems [v] = jdumpChars v from rfl, hd], hws, h1, h2⟩
  | cons w ws =>
    refine ⟨a, t ++ ',' :: ' ' :: jdumpElems (w :: ws), ?_, hws, h1, h2⟩
    rw [show jdumpElems (v :: w :: ws) = jdumpChars v ++ ',' :: ' ' :: jdumpElems (w :: ws)
      from rfl, hd, List.cons_append]

theorem fields_head (k : String) (w : JValue) (kvs : List (String × JValue)) :
    ∃ t, jdumpFields ((k, w) :: kvs) = '"' :: t := by
  cases kvs with
  | nil =>
    refine ⟨k.toList.flatMap jsonEscapeChar ++ '"' :: ':' :: ' ' :: jdumpChars w, ?_⟩
    rw [show jdumpFields [(k, w)] = strDumpChars k ++ ':' :: ' ' :: jdumpChars w from rfl]
    rw [show strDumpChars k = '"' :: (k.toList.flatMap jsonEscapeChar ++ ['"']) from rfl]
    rw [List.cons_append, List.append_assoc, List.singleton_append]
  | cons kv2 kvs2 =>
    refine ⟨k.toList.flatMap jsonEscapeChar ++
      '"' :: ':' :: ' ' :: (jdumpChars w ++ ',' :: ' ' :: jdumpFields (kv2 :: kvs2)), ?_⟩
    rw [show jdumpFields ((k, w) :: kv2 :: kvs2) =
      strDumpChars k ++ ':' :: ' ' :: jdumpChars w ++ ',' :: ' ' :: jdumpFields (kv2 :: kvs2)
      from rfl]
    rw [show strDumpChars k = '"' :: (k.toList.flatMap jsonEscapeChar ++ ['"']) from rfl]
    simp [List.cons_append, List.append_assoc]

theorem parse_dump_main : ∀ fuel : Nat,
    (∀ v rest, sizeJ v < fuel → jwf v = true → numBoundary rest →
      parseVal fuel (jdumpChars v ++ rest) = some (v, rest)) ∧
    (∀ l rest, sizeL l < fuel → jwfL l = true → l ≠ [] →
      parseElems fuel (jdumpElems l ++ ']' :: rest) = some (l, rest)) ∧
    (∀ kvs rest, sizeF kvs < fuel → jwfF kvs = true → kvs ≠ [] →
      parseMembers fuel (jdumpFields kvs ++ '}' :: rest) = some (kvs, rest)) := by
  intro fuel
  induction fuel with
  | zero =>
    exact ⟨fun v rest hsz _ _ => absurd hsz (by omega),
      fun l rest hsz _ _ => absurd hsz (by omega),
      fun kvs rest hsz _ _ => absurd hsz (by omega)⟩
  | succ f ih =>
    obtain ⟨ihV, ihE, ihM⟩ := ih
    refine ⟨?_, ?_, ?_⟩
    · intro v rest hsz hwf hnb
      cases v with
      | null =>
        show parseVal (f + 1) ('n' :: 'u' :: 'l' :: 'l' :: rest) = some (.null, rest)
        rw [parseVal.eq_def]
        simp [skipWs_cons_not, jsonWsCh,
          show ('u' :: 'l' :: 'l' :: rest).take 3 = "ull".toList from rfl,
          show ('u' :: 'l' :: 'l' :: rest).drop 3 = rest from rfl]
      | bool b =>
        cases b with
        | false =>
          show parseVal (f + 1) ('f' :: 'a' :: 'l' :: 's' :: 'e' :: rest) =
            some (.bool false, rest)
          rw [parseVal.eq_def]
          simp [skipWs_cons_not, jsonWsCh,
            show ('a' :: 'l' :: 's' :: 'e' :: rest).take 4 = "alse".toList from rfl,
            show ('a' :: 'l' :: 's' :: 'e' :: rest).drop 4 = rest from rfl]
        | true =>
          show parseVal (f + 1) ('t' :: 'r' :: 'u' :: 'e' :: rest) = some (.bool true, rest)
          rw [parseVal.eq_def]
          simp [skipWs_cons_not, jsonWsCh,
            show ('r' :: 'u' :: 'e' :: rest).take 3 = "rue".toList from rfl,
            show ('r' :: 'u' :: 'e' :: rest).drop 3 = rest from rfl]
      | num n =>
        obtain ⟨a, t, hit, hh⟩ := intDumpChars_head n
        obtain ⟨hws, h1, h2, h3, h4, h5, h6⟩ := numHead_facts a hh
        have hd : jdumpChars (.num n) = a :: t := by
          rw [show jdumpChars (.num n) = intDumpChars n from rfl, hit]
        have hpj : parseJsonInt (a :: (t ++ rest)) = some (n, rest) := by
          rw [← List.cons_append, ← hit]
          exact parseJsonInt_dump n rest hnb
        rw [hd, List.cons_append, parseVal.eq_def]
        simp [skipWs_cons_not a (t ++ rest) hws, h1, h2, h3, h4, h5, h6, hpj]
      | str s =>
        show parseVal (f + 1)
          (('"' :: (s.toList.flatMap jsonEscapeChar ++ ['"'])) ++ rest) = some (.str s, rest)
        rw [List.cons_append, List.append_assoc, List.singleton_append, parseVal.eq_def]
        simp [skipWs_cons_not, jsonWsCh,
          parseStrBody_dump, strmk_toList]
      | arr l =>
        cases l with
        | nil =>
          show parseVal (f + 1) ('[' :: ']' :: rest) = some (.arr [], rest)
          rw [parseVal.eq_def]
          simp [skipWs_cons_not, jsonWsCh]
        | cons v vs =>
          obtain ⟨a, t, hel, hws, hne1, hne2⟩ := elems_head v vs
          have hsz' : sizeL (v :: vs) < f := by
            have e1 : sizeJ (.arr (v :: vs)) = sizeL (v :: vs) + 1 := rfl
            omega
          have hE := ihE (v :: vs) rest hsz' hwf (by simp)
          rw [show jdumpChars (.arr (v :: vs)) = '[' :: (jdumpElems (v :: vs) ++ [']'])
            from rfl, List.cons_append, List.append_assoc, List.singleton_append,
            parseVal.eq_def]
          rw [hel, List.cons_append] at hE ⊢
          simp [skipWs_cons_not, jsonWsCh, hws, hne1, hE]
          rw [skipWs_cons_not a (t ++ ']' :: rest) hws]
          split
          · rename_i r2 heq
            injection heq with h1 h2
            exact absurd h1 (by simp [hne1])
          · rfl
      | obj kvs =>
        cases kvs with
        | nil =>
          show parseVal (f + 1) ('{' :: '}' :: rest) = some (.obj [], rest)
          rw [parseVal.eq_def]
          simp [skipWs_cons_not, jsonWsCh]
        | cons kv kvs' =>
          obtain ⟨k, w⟩ := kv
          obtain ⟨t, hfl⟩ := fields_head k w kvs'
          have hsz' : sizeF ((k, w) :: kvs') < f := by
            have e1 : sizeJ (.obj ((k, w) :: kvs')) = sizeF ((k, w) :: kvs') + 1 := rfl
            omega
          have hM := ihM ((k, w) :: kvs') rest hsz' hwf (by simp)
          rw [show jdumpChars (.obj ((k, w) :: kvs')) =
            '{' :: (jdumpFields ((k, w) :: kvs') ++ ['}']) from rfl, List.cons_append,
            List.append_assoc, List.singleton_append, parseVal.eq_def]
          rw [hfl, List.cons_append] at hM ⊢
          simp [skipWs_cons_not, jsonWsCh, hM]
    · intro l rest hsz hwf hne
      cases l with
      | nil => exact absurd rfl hne
      | cons v vs =>
        have hszv : sizeJ v < f := by
          have e1 : sizeL (v :: vs) = sizeJ v + sizeL vs + 1 := rfl
          omega
        have hwfv : jwf v = true ∧ jwfL vs = true := by
          have e : jwfL (v :: vs) = (jwf v && jwfL vs) := rfl
          rw [e] at hwf
          simpa using hwf
        rw [parseElems.eq_def]
        cases vs with
        | nil =>
          have hV := ihV v (']' :: rest) hszv hwfv.1
            (numBoundary_cons ']' rest (by decide) (by decide) (by decide) (by decide))
          rw [show jdumpElems [v] = jdumpChars v from rfl]
          simp [hV, skipWs_cons_not, jsonWsCh]
        | cons w ws =>
          have hV := ihV v (',' :: ' ' :: (jdumpElems (w :: ws) ++ ']' :: rest)) hszv hwfv.1
            (numBoundary_cons ',' _ (by decide) (by decide) (by decide) (by decide))
          have hszE : sizeL (w :: ws) < f := by
            have e1 : sizeL (v :: w :: ws) = sizeJ v + sizeL (w :: ws) + 1 := rfl
            have hp := sizeJ_pos v
            omega
          have hE := ihE (w :: ws) rest hszE hwfv.2 (by simp)
          rw [show jdumpElems (v :: w :: ws) = jdumpChars v ++ ',' :: ' ' :: jdumpElems (w :: ws)
            from rfl, List.append_assoc, List.cons_append, List.cons_append]
          simp [hV, skipWs_cons_not, jsonWsCh,
            parseElems_ws, hE]
    · intro kvs rest hsz hwf hne
      cases kvs with
      | nil => exact absurd rfl hne
      | cons kv kvs' =>
        obtain ⟨k, w⟩ := kv
        have hcomp : (!k.toList.contains btk && keyAbsent k kvs' && jwf w && jwfF kvs') = true := hwf
        obtain ⟨⟨⟨hbtk, hka⟩, hjw⟩, hjf⟩ :
            (((!k.toList.contains btk) = true ∧ keyAbsent k kvs' = true) ∧ jwf w = true) ∧
              jwfF kvs' = true := by
          simpa [Bool.and_eq_true] using hcomp
        have hszw : sizeJ w < f := by
          have e : sizeF ((k, w) :: kvs') = sizeJ w + sizeF kvs' + 1 := rfl
          omega
        rw [parseMembers.eq_def]
        cases kvs' with
        | nil =>
          have hV := ihV w ('}' :: rest) hszw hjw
            (numBoundary_cons '}' rest (by decide) (by decide) (by decide) (by decide))
          rw [show jdumpFields [(k, w)] = strDumpChars k ++ ':' :: ' ' :: jdumpChars w from rfl]
          rw [show strDumpChars k = '"' :: (k.toList.flatMap jsonEscapeChar ++ ['"']) from rfl]
          simp only [List.cons_append, List.append_assoc, List.singleton_append]
          simp [skipWs_cons_not, jsonWsCh, parseStrBody_dump, parseVal_ws, hV, strmk_toList]
        | cons kv2 kvs2 =>
          have hV := ihV w (',' :: ' ' :: (jdumpFields (kv2 :: kvs2) ++ '}' :: rest)) hszw hjw
            (numBoundary_cons ',' _ (by decide) (by decide) (by decide) (by decide))
          have hszM : sizeF (kv2 :: kvs2) < f := by
            have e1 : sizeF ((k, w) :: kv2 :: kvs2) = sizeJ w + sizeF (kv2 :: kvs2) + 1 := rfl
            have hp := sizeJ_pos w
            omega
          have hM := ihM (kv2 :: kvs2) rest hszM hjf (by simp)
          rw [show jdumpFields ((k, w) :: kv2 :: kvs2) =
            strDumpChars k ++ ':' :: ' ' :: jdumpChars w ++ ',' :: ' ' :: jdumpFields (kv2 :: kvs2)
            from rfl]
          rw [show strDumpChars k = '"' :: (k.toList.flatMap jsonEscapeChar ++ ['"']) from rfl]
          simp only [List.cons_append, List.append_assoc, List.singleton_append]
          simp [skipWs_cons_not, jsonWsCh, parseStrBody_dump, parseVal_ws, hV,
            parseMembers_ws, hM, strmk_toList, dedupInsert_absent k w (kv2 :: kvs2) hka]

mutual

theorem sizeJ_le_dumpLen : ∀ v : JValue, sizeJ v ≤ (jdumpChars v).length
  | .null => by decide
  | .bool true => by decide
  | .bool false => by decide
  | .num n => by
    show (1 : Nat) ≤ (intDumpChars n).length
    obtain ⟨a, t, h, _⟩ := intDumpChars_head n
    rw [h]
    simp
  | .str s => by
    show (1 : Nat) ≤ (strDumpChars s).length
    rw [show strDumpChars s = '"' :: (s.toList.flatMap jsonEscapeChar ++ ['"']) from rfl]
    simp
  | .arr l => by
    show sizeL l + 1 ≤ ('[' :: (jdumpElems l ++ [']'])).length
    have h := sizeL_le_elemsLen l
    simp only [List.length_cons, List.length_append, List.length_singleton]
    omega
  | .obj kvs => by
    show sizeF kvs + 1 ≤ ('{' :: (jdumpFields kvs ++ ['}'])).length
    have h := sizeF_le_fieldsLen kvs
    simp only [List.length_cons, List.length_append, List.length_singleton]
    omega

theorem sizeL_le_elemsLen : ∀ l : List JValue, sizeL l ≤ (jdumpElems l).length + 1
  | [] => by decide
  | [v] => by
    show sizeJ v + sizeL [] + 1 ≤ (jdumpChars v).length + 1
    have h := sizeJ_le_dumpLen v
    show sizeJ v + 0 + 1 ≤ (jdumpChars v).length + 1
    omega
  | v :: v2 :: rest => by
    show sizeJ v + sizeL (v2 :: rest) + 1 ≤
      (jdumpChars v ++ ',' :: ' ' :: jdumpElems (v2 :: rest)).length + 1
    have h1 := sizeJ_le_dumpLen v
    have h2 := sizeL_le_elemsLen (v2 :: rest)
    simp only [List.length_append, List.length_cons]
    omega

theorem sizeF_le_fieldsLen : ∀ kvs : List (String × JValue), sizeF kvs ≤ (jdumpFields kvs).length + 1
  | [] => by decide
  | [(k, v)] => by
    show sizeJ v + sizeF [] + 1 ≤ (strDumpChars k ++ ':' :: ' ' :: jdumpChars v).length + 1
    have h := sizeJ_le_dumpLen v
    show sizeJ v + 0 + 1 ≤ _
    simp only [List.length_append, List.length_cons]
    omega
  | (k, v) :: kv2 :: rest => by
    show sizeJ v + sizeF (kv2 :: rest) + 1 ≤
      (strDumpChars k ++ ':' :: ' ' :: jdumpChars v ++
        ',' :: ' ' :: jdumpFields (kv2 :: rest)).length + 1
    have h1 := sizeJ_le_dumpLen v
    have h2 := sizeF_le_fieldsLen (kv2 :: rest)
    simp only [List.length_append, List.length_cons]
    omega

end

theorem jparse_dump (v : JValue) (hwf : jwf v = true) : jparse (jdump v) = some v := by
  unfold jparse jdump
  rw [show (String.mk (jdumpChars v)).toList = jdumpChars v from rfl]
  have hsz : sizeJ v < 2 * (jdumpChars v).length + 2 := by
    have h := sizeJ_le_dumpLen v
    omega
  have h := (parse_dump_main (2 * (jdumpChars v).length + 2)).1 v [] hsz hwf numBoundary_nil
  rw [List.append_nil] at h
  rw [h]
  simp [skipWs]

theorem hexDigit_ne_btk (k : Nat) (hk : k < 16) : hexDigit k ≠ btk := by
  interval_cases k <;> decide

theorem jsonEscapeChar_no_btk (d : Char) (hd : d ≠ btk) :
    ∀ c ∈ jsonEscapeChar d, c ≠ btk := by
  intro c hc
  unfold jsonEscapeChar at hc
  split_ifs at hc with h1 h2 h3 h4 h5 h6 h7 h8
  · rcases (by simpa using hc : c = '\\' ∨ c = '"') with rfl | rfl <;> decide
  · rcases (by simpa using hc : c = '\\' ∨ c = '\\') with rfl | rfl <;> decide
  · rcases (by simpa using hc : c = '\\' ∨ c = 'n') with rfl | rfl <;> decide
  · rcases (by simpa using hc : c = '\\' ∨ c = 't') with rfl | rfl <;> decide
  · rcases (by simpa using hc : c = '\\' ∨ c = 'r') with rfl | rfl <;> decide
  · rcases (by simpa using hc : c = '\\' ∨ c = 'b') with rfl | rfl <;> decide
  · rcases (by simpa using hc : c = '\\' ∨ c = 'f') with rfl | rfl <;> decide
  · rcases (by simpa using hc :
        c = '\\' ∨ c = 'u' ∨ c = '0' ∨ c = '0' ∨
          c = hexDigit (d.toNat / 16) ∨ c = hexDigit (d.toNat % 16))
      with rfl | rfl | rfl | rfl | rfl | rfl
    · decide
    · decide
    · decide
    · decide
    · exact hexDigit_ne_btk _ (by omega)
    · exact hexDigit_ne_btk _ (Nat.mod_lt _ (by omega))
  · rcases (by simpa using hc : c = d) with rfl
    exact hd

theorem strDump_no_btk (s : String) (h : s.toList.contains btk = false) :
    ∀ c ∈ strDumpChars s, c ≠ btk := by
  intro c hc
  have hmem : ¬(btk ∈ s.toList) := by simpa using h
  rw [show strDumpChars s = '"' :: (s.toList.flatMap jsonEscapeChar ++ ['"']) from rfl] at hc
  rcases List.mem_cons.mp hc with rfl | hc2
  · decide
  rcases List.mem_append.mp hc2 with hc3 | hc4
  · obtain ⟨d, hdm, hcd⟩ := List.mem_flatMap.mp hc3
    exact jsonEscapeChar_no_btk d (fun he => hmem (he ▸ hdm)) c hcd
  · rcases (by simpa using hc4 : c = '"') with rfl
    decide

mutual

theorem dump_no_btk : ∀ v : JValue, jwf v = true → ∀ c ∈ jdumpChars v, c ≠ btk
  | .null, _, c, hc => by
    rw [show jdumpChars .null = ['n', 'u', 'l', 'l'] from rfl] at hc
    rcases (by simpa using hc : c = 'n' ∨ c = 'u' ∨ c = 'l') with rfl | rfl | rfl <;> decide
  | .bool true, _, c, hc => by
    rw [show jdumpChars (.bool true) = ['t', 'r', 'u', 'e'] from rfl] at hc
    rcases (by simpa using hc : c = 't' ∨ c = 'r' ∨ c = 'u' ∨ c = 'e')
      with rfl | rfl | rfl | rfl <;> decide
  | .bool false, _, c, hc => by
    rw [show jdumpChars (.bool false) = ['f', 'a', 'l', 's', 'e'] from rfl] at hc
    rcases (by simpa using hc : c = 'f' ∨ c = 'a' ∨ c = 'l' ∨ c = 's' ∨ c = 'e')
      with rfl | rfl | rfl | rfl | rfl <;> decide
  | .num n, _, c, hc => by
    rcases intDumpChars_chars n c hc with rfl | ⟨k, rfl⟩
    · decide
    · rcases digitChar_cases k with h|h|h|h|h|h|h|h|h|h <;> rw [h] <;> decide
  | .str s, hwf, c, hc => by
    have h : s.toList.contains btk = false := by simpa [jwf] using hwf
    exact strDump_no_btk s h c hc
  | .arr l, hwf, c, hc => by
    rw [show jdumpChars (.arr l) = '[' :: (jdumpElems l ++ [']']) from rfl] at hc
    rcases List.mem_cons.mp hc with rfl | hc2
    · decide
    rcases List.mem_append.mp hc2 with hc3 | hc4
    · exact elems_no_btk l hwf c hc3
    · rcases (by simpa using hc4 : c = ']') with rfl
      decide
  | .obj kvs, hwf, c, hc => by
    rw [show jdumpChars (.obj kvs) = '{' :: (jdumpFields kvs ++ ['}']) from rfl] at hc
    rcases List.mem_cons.mp hc with rfl | hc2
    · decide
    rcases List.mem_append.mp hc2 with hc3 | hc4
    · exact fields_no_btk kvs hwf c hc3
    · rcases (by simpa using hc4 : c = '}') with rfl
      decide

theorem elems_no_btk : ∀ l : List JValue, jwfL l = true → ∀ c ∈ jdumpElems l, c ≠ btk
  | [], _, c, hc => by simp [show jdumpElems [] = [] from rfl] at hc
  | [v], hwf, c, hc => by
    have hv : jwf v = true := by
      have e : jwfL [v] = (jwf v && jwfL []) := rfl
      rw [e] at hwf
      exact (Bool.and_eq_true_iff.mp hwf).1
    exact dump_no_btk v hv c (by rwa [show jdumpElems [v] = jdumpChars v from rfl] at hc)
  | v :: v2 :: rest, hwf, c, hc => by
    have hv : jwf v = true ∧ jwfL (v2 :: rest) = true := by
      have e : jwfL (v :: v2 :: rest) = (jwf v && jwfL (v2 :: rest)) := rfl
      rw [e] at hwf
      simpa using hwf
    rw [show jdumpElems (v :: v2 :: rest) =
      jdumpChars v ++ ',' :: ' ' :: jdumpElems (v2 :: rest) from rfl] at hc
    rcases List.mem_append.mp hc with hc1 | hc2
    · exact dump_no_btk v hv.1 c hc1
    rcases List.mem_cons.mp hc2 with rfl | hc3
    · decide
    rcases List.mem_cons.mp hc3 with rfl | hc4
    · decide
    · exact elems_no_btk (v2 :: rest) hv.2 c hc4

theorem fields_no_btk : ∀ kvs : List (String × JValue), jwfF kvs = true →
    ∀ c ∈ jdumpFields kvs, c ≠ btk
  | [], _, c, hc => by simp [show jdumpFields [] = [] from rfl] at hc
  | [(k, v)], hwf, c, hc => by
    have hv : (!k.toList.contains btk) = true ∧ jwf v = true := by
      have e : jwfF [(k, v)] = (!k.toList.contains btk && keyAbsent k [] && jwf v && jwfF []) := rfl
      rw [e] at hwf
      simp [Bool.and_eq_true] at hwf
      exact ⟨by simp [hwf.1.1], hwf.1.2⟩
    rw [show jdumpFields [(k, v)] = strDumpChars k ++ ':' :: ' ' :: jdumpChars v from rfl] at hc
    rcases List.mem_append.mp hc with hc1 | hc2
    · exact strDump_no_btk k (by simpa using hv.1) c hc1
    rcases List.mem_cons.mp hc2 with rfl | hc3
    · decide
    rcases List.mem_cons.mp hc3 with rfl | hc4
    · decide
    · exact dump_no_btk v hv.2 c hc4
  | (k, v) :: kv2 :: rest, hwf, c, hc => by
    have hv : (!k.toList.contains btk) = true ∧ jwf v = true ∧ jwfF (kv2 :: rest) = true := by
      have e : jwfF ((k, v) :: kv2 :: rest) =
        (!k.toList.contains btk && keyAbsent k (kv2 :: rest) && jwf v && jwfF (kv2 :: rest)) := rfl
      rw [e] at hwf
      simp [Bool.and_eq_true] at hwf
      exact ⟨by simp [hwf.1.1.1], hwf.1.2, hwf.2⟩
    rw [show jdumpFields ((k, v) :: kv2 :: rest) =
      strDumpChars k ++ ':' :: ' ' :: jdumpChars v ++
        ',' :: ' ' :: jdumpFields (kv2 :: rest) from rfl] at hc
    rcases List.mem_append.mp hc with hcL | hcR
    · rcases List.mem_append.mp hcL with hc1 | hc2
      · exact strDump_no_btk k (by simpa using hv.1) c hc1
      rcases List.mem_cons.mp hc2 with rfl | hc3
      · decide
      rcases List.mem_cons.mp hc3 with rfl | hc4
      · decide
      · exact dump_no_btk v hv.2.1 c hc4
    · rcases List.mem_cons.mp hcR with rfl | hc7
      · decide
      rcases List.mem_cons.mp hc7 with rfl | hc8
      · decide
      · exact fields_no_btk (kv2 :: rest) hv.2.2 c hc8

end

theorem findFence_no_btk (l : List Char) (h : ∀ c ∈ l, c ≠ btk) : findFence l = none := by
  induction l with
  | nil => rfl
  | cons c rest ih =>
    have hf : isFenceAt (c :: rest) = false := by
      cases rest with
      | nil => rfl
      | cons b r2 =>
        cases r2 with
        | nil => rfl
        | cons d r3 =>
          show ((decide (c = btk) && decide (b = btk)) && decide (d = btk)) = false
          simp [h c (List.mem_cons_self _ _)]
    rw [findFence.eq_def]
    simp [hf, ih (fun d hd => h d (List.mem_cons_of_mem _ hd))]

theorem candidateOf_dump (v : JValue) (h : rootContainer v = true) (hwf : jwf v = true) :
    candidateOf (jdump v) = some (jdumpChars v) := by
  unfold candidateOf
  rw [show (jdump v).toList = jdumpChars v from rfl]
  rw [findFence_no_btk _ (dump_no_btk v hwf)]
  rw [extract_dump v h]

theorem cleanJsonFull_dump (v : JValue) (h : rootContainer v = true) (hwf : jwf v = true) :
    cleanJsonFull (jdump v) = (v, []) := by
  unfold cleanJsonFull
  rw [candidateOf_dump v h hwf]
  obtain ⟨a, t, hd, _, _, _⟩ := dump_head v
  have hne : (jdumpChars v).isEmpty = false := by rw [hd]; rfl
  simp [hne, show String.mk (jdumpChars v) = jdump v from rfl, jparse_dump v hwf]

/-- C9 counterexample: the text that is exactly the serialization of the
object with one key "a" whose value contains a code fence in its string is
a parseable structured value (the parser model returns the object), yet
the extractor returns the empty-list fallback, not that value: the fence
search matches inside the string literal and the fenced group "x" parses
as nothing. -/
theorem c9_counterexample_fenced_string :
    jparse "\x7b\"a\": \"```x```\"\x7d" =
      some (JValue.obj [("a", JValue.str "```x```")]) ∧
    cleanJson "\x7b\"a\": \"```x```\"\x7d" = JValue.arr [] ∧
    JValue.arr [] ≠ JValue.obj [("a", JValue.str "```x```")] :=
  ⟨rfl, rfl, by simp⟩

/-- C9 (amended): extraction is idempotent on serialized container values
free of fence markers: for every value whose root is an object or array,
whose object keys are duplicate-free, and whose strings and keys contain
no backtick, running the serialized text through the extractor yields that
value back, and re-extracting the serialization of the result is an
identical result.  (As stated over all already-clean structured texts the
claim fails: a bare scalar text such as "123" extracts to the empty-list
fallback, and a container text with a code fence inside a string extracts
to the fallback as well, per the counterexample.) -/
theorem c9_extractor_roundtrip_serialized_containers (v : JValue)
    (hroot : rootContainer v = true) (hwf : jwf v = true) :
    cleanJson (jdump v) = v ∧
    cleanJson (jdump (cleanJson (jdump v))) = cleanJson (jdump v) := by
  have h1 : cleanJson (jdump v) = v := by
    unfold cleanJson
    rw [cleanJsonFull_dump v hroot hwf]
  exact ⟨h1, by rw [h1]; exact h1⟩

/-- C9 witness: the amended round trip at a concrete serialized object. -/
theorem c9_extractor_roundtrip_witness :
    rootContainer (JValue.obj [("a", JValue.arr [JValue.num 1, JValue.str "b"])]) = true ∧
    jwf (JValue.obj [("a", JValue.arr [JValue.num 1, JValue.str "b"])]) = true ∧
    (cleanJson (jdump (JValue.obj [("a", JValue.arr [JValue.num 1, JValue.str "b"])])) =
        JValue.obj [("a", JValue.arr [JValue.num 1, JValue.str "b"])] ∧
      cleanJson (jdump (cleanJson (jdump
          (JValue.obj [("a", JValue.arr [JValue.num 1, JValue.str "b"])])))) =
        cleanJson (jdump (JValue.obj [("a", JValue.arr [JValue.num 1, JValue.str "b"])]))) :=
  ⟨rfl, by decide,
    c9_extractor_roundtrip_serialized_containers
      (JValue.obj [("a", JValue.arr [JValue.num 1, JValue.str "b"])]) rfl (by decide)⟩
